import Mathlib

/-!
Verification of the Python obfuscator repository (src/app.py, src/pyobf.py,
src/pyobf_xor_mashal.py) against its natural-language specification.

Shallow embedding conventions:
- Python `bytes` values are `List Nat` with entries below 256.
- Python `str` values that flow through the encoding pipeline are `List Nat`
  of Unicode code points (all generated loader text is ASCII, so byte-level
  and code-point-level substring scans agree); identifiers handled by the
  AST renamer are Lean `String`s.
- fallible library calls return `Option`; functions that can only fail by
  raising are modelled as `Option`-returning.
- Library routines that the repository calls (base64, zlib, UTF-8 codecs)
  are modelled executably with their documented behaviour on the inputs the
  repository feeds them; each model carries a doc comment stating exactly
  what is modelled.
-/

/-- Code points of a Lean string literal, used to transcribe the exact text
fragments (f-string templates, marker substrings) appearing in the source. -/
def strLit (s : String) : List Nat := s.data.map Char.toNat

/-- Value 0..63 to its base64 alphabet character code, as in RFC 4648
(`A-Z`, `a-z`, `0-9`, `+`, `/`), the encoding used by Python `base64.b64encode`. -/
def b64chr (n : Nat) : Nat :=
  if n < 26 then 65 + n
  else if n < 52 then 97 + (n - 26)
  else if n < 62 then 48 + (n - 52)
  else if n = 62 then 43
  else 47

/-- Partial inverse of `b64chr`: alphabet character code to its 6-bit value. -/
def b64val (c : Nat) : Option Nat :=
  if 65 ≤ c ∧ c ≤ 90 then some (c - 65)
  else if 97 ≤ c ∧ c ≤ 122 then some (c - 97 + 26)
  else if 48 ≤ c ∧ c ≤ 57 then some (c - 48 + 52)
  else if c = 43 then some 62
  else if c = 47 then some 63
  else none

/-- Model of Python `base64.b64encode` on a byte list: groups of three bytes
become four alphabet characters, with `=` (61) padding for a 1- or 2-byte tail. -/
def b64encode : List Nat → List Nat
  | [] => []
  | [a] => [b64chr (a / 4), b64chr (a % 4 * 16), 61, 61]
  | [a, b] => [b64chr (a / 4), b64chr (a % 4 * 16 + b / 16), b64chr (b % 16 * 4), 61]
  | a :: b :: c :: rest =>
      b64chr (a / 4) :: b64chr (a % 4 * 16 + b / 16) :: b64chr (b % 16 * 4 + c / 64) ::
        b64chr (c % 64) :: b64encode rest

/-- Model of Python `base64.b64decode` (after newline stripping, so the input
holds only alphabet and `=` characters, as produced by this repository's
encoders): strings whose length is not a multiple of four raise
`binascii.Error`, modelled as `none`; well-padded groups decode to bytes. -/
def b64decodeCore : List Nat → Option (List Nat)
  | [] => some []
  | c1 :: c2 :: c3 :: c4 :: rest =>
      if c3 = 61 ∧ c4 = 61 ∧ rest = [] then
        match b64val c1, b64val c2 with
        | some v1, some v2 => some [v1 * 4 + v2 / 16]
        | _, _ => none
      else if c4 = 61 ∧ rest = [] then
        match b64val c1, b64val c2, b64val c3 with
        | some v1, some v2, some v3 => some [v1 * 4 + v2 / 16, v2 % 16 * 16 + v3 / 4]
        | _, _, _ => none
      else
        match b64val c1, b64val c2, b64val c3, b64val c4, b64decodeCore rest with
        | some v1, some v2, some v3, some v4, some tail =>
            some ((v1 * 4 + v2 / 16) :: (v2 % 16 * 16 + v3 / 4) :: (v3 % 4 * 64 + v4) :: tail)
        | _, _, _, _, _ => none
  | _ => none

/-- Python `base64.b64decode` as used by `deobfuscate_python_code`. -/
def b64decode (l : List Nat) : Option (List Nat) := b64decodeCore l

/-- Model of `zlib.compress`: a lossless injective code; the model keeps the
payload and prepends the zlib stream header byte 0x78 (120) that every real
`zlib.compress` output starts with. -/
def zlib_compress (d : List Nat) : List Nat := 120 :: d

/-- Model of `zlib.decompress`: inverts `zlib_compress`; any input that does
not carry the zlib header raises `zlib.error`, modelled as `none` (real zlib
rejects such data via its header and checksum validation). -/
def zlib_decompress : List Nat → Option (List Nat)
  | 120 :: d => some d
  | _ => none

/-- UTF-8 encoding of one code point (`str.encode('utf-8')`, per character). -/
def utf8EncChar (c : Nat) : List Nat :=
  if c < 128 then [c]
  else if c < 2048 then [192 + c / 64, 128 + c % 64]
  else if c < 65536 then [224 + c / 4096, 128 + c / 64 % 64, 128 + c % 64]
  else [240 + c / 262144, 128 + c / 4096 % 64, 128 + c / 64 % 64, 128 + c % 64]

/-- Model of Python `str.encode('utf-8')` on a code-point list. -/
def utf8Encode (cps : List Nat) : List Nat := (cps.map utf8EncChar).flatten

/-- Read one UTF-8-coded character from a byte list: returns the code point
and the remaining bytes, or `none` on a structurally invalid sequence
(stray or missing continuation byte, invalid leader). -/
def utf8DecodeStep : List Nat → Option (Nat × List Nat)
  | [] => none
  | b :: r =>
    if b < 128 then some (b, r)
    else if b < 192 then none
    else if b < 224 then
      match r with
      | b2 :: r2 =>
          if 128 ≤ b2 ∧ b2 < 192 then some ((b - 192) * 64 + (b2 - 128), r2) else none
      | [] => none
    else if b < 240 then
      match r with
      | b2 :: b3 :: r3 =>
          if (128 ≤ b2 ∧ b2 < 192) ∧ (128 ≤ b3 ∧ b3 < 192) then
            some ((b - 224) * 4096 + (b2 - 128) * 64 + (b3 - 128), r3)
          else none
      | _ => none
    else if b < 248 then
      match r with
      | b2 :: b3 :: b4 :: r4 =>
          if (128 ≤ b2 ∧ b2 < 192) ∧ (128 ≤ b3 ∧ b3 < 192) ∧ (128 ≤ b4 ∧ b4 < 192) then
            some ((b - 240) * 262144 + (b2 - 128) * 4096 + (b3 - 128) * 64 + (b4 - 128), r4)
          else none
      | _ => none
    else none

/-- Fuelled decoding loop for `utf8Decode`; each step consumes at least one
byte, so fuel equal to the byte count always suffices. -/
def utf8DecodeGo : Nat → List Nat → Option (List Nat)
  | _, [] => some []
  | 0, _ :: _ => none
  | fuel + 1, l =>
      match utf8DecodeStep l with
      | none => none
      | some (c, r) =>
          match utf8DecodeGo fuel r with
          | none => none
          | some cs => some (c :: cs)

/-- Model of Python `bytes.decode('utf-8')`: either the code-point list or
`none` for a `UnicodeDecodeError`. -/
def utf8Decode (l : List Nat) : Option (List Nat) := utf8DecodeGo l.length l

/-- Bool test: `p` is a leading segment of `l`. -/
def leadsWith : List Nat → List Nat → Bool
  | [], _ => true
  | _ :: _, [] => false
  | a :: p, b :: l => a == b && leadsWith p l

/-- Model of the Python `in` substring test: `pat` occurs contiguously in the
second argument. -/
def containsSub (pat : List Nat) : List Nat → Bool
  | [] => leadsWith pat []
  | l@(_ :: t) => leadsWith pat l || containsSub pat t

/-- Character class `[A-Za-z0-9+/=\n]` of the literal-block regular expression
in `deobfuscate_python_code` (src/app.py line 59). -/
def classChar (c : Nat) : Bool :=
  decide ((65 ≤ c ∧ c ≤ 90) ∨ (97 ≤ c ∧ c ≤ 122) ∨ (48 ≤ c ∧ c ≤ 57) ∨
    c = 43 ∨ c = 47 ∨ c = 61 ∨ c = 10)

/-- The base-64 alphabet `[A-Za-z0-9+/=]` (the class above without newline):
exactly the characters `b64encode` can emit. -/
def b64alpha (c : Nat) : Bool :=
  decide ((65 ≤ c ∧ c ≤ 90) ∨ (97 ≤ c ∧ c ≤ 122) ∨ (48 ≤ c ∧ c ≤ 57) ∨
    c = 43 ∨ c = 47 ∨ c = 61)

/-- Length of the longest leading run of `classChar` characters. -/
def runLen : List Nat → Nat
  | [] => 0
  | c :: t => if classChar c then runLen t + 1 else 0

/-- Attempt of the regular expression `b"""([A-Za-z0-9+/=\n]+)"""` at the head
of the text: the marker `b` `"` `"` `"` (98, 34, 34, 34), then a maximal
non-empty run of class characters, then `"""`.  Because `"` is not in the
class, the greedy group can only succeed on the maximal run, so no further
backtracking arises. -/
def matchAt (l : List Nat) : Option (List Nat) :=
  if leadsWith [98, 34, 34, 34] l then
    if 1 ≤ runLen (l.drop 4) ∧ leadsWith [34, 34, 34] ((l.drop 4).drop (runLen (l.drop 4))) then
      some ((l.drop 4).take (runLen (l.drop 4)))
    else none
  else none

/-- Model of `re.search` with the pattern above: leftmost position wins;
the returned value is `match.group(1)`. -/
def findBlock : List Nat → Option (List Nat)
  | [] => none
  | l@(_ :: t) =>
      match matchAt l with
      | some g => some g
      | none => findBlock t

/-- The scheme test of src/app.py line 68: `b'zlib.decompress' in code or
b'_z=zlib.decompress' in code` (the text is ASCII, so the byte-level test
agrees with the code-point-level one). -/
def sniffZlib (t : List Nat) : Bool :=
  containsSub (strLit "zlib.decompress") t || containsSub (strLit "_z=zlib.decompress") t

/-- Result of `deobfuscate_python_code`: the function returns a Python string
in all cases; the error returns are distinguished by their fixed texts
(`"Error: Could not find Base64 encoded data in the file"` and
`"Error during deobfuscation: ..."` from the outer `except`). -/
inductive DeobfResult where
  | text : List Nat → DeobfResult
  | errNoBlock : DeobfResult
  | errCaught : DeobfResult
deriving DecidableEq

/-- Translation of `deobfuscate_python_code` (src/app.py lines 56-77):
locate the literal block, strip newlines, base64-decode (a raise lands in the
outer `except`), then, when the text mentions `zlib.decompress`, try
`zlib.decompress(...)` followed by `.decode('utf-8')` under a bare
`except: pass` that falls through to returning `decoded.decode('utf-8')`. -/
def deobfuscate_python_code (t : List Nat) : DeobfResult :=
  match findBlock t with
  | none => .errNoBlock
  | some g =>
    match b64decode (g.filter (fun c => c != 10)) with
    | none => .errCaught
    | some decoded =>
      if sniffZlib t then
        match (zlib_decompress decoded).bind utf8Decode with
        | some s => .text s
        | none =>
          match utf8Decode decoded with
          | some s => .text s
          | none => .errCaught
      else
        match utf8Decode decoded with
        | some s => .text s
        | none => .errCaught

/-- Loader template selector of `obfuscate_python_code` (the `template`
argument: "standard", "compact", "obfuscated"). -/
inductive Template where
  | standard : Template
  | compact : Template
  | obfuscated : Template
deriving DecidableEq

/-- Loader text strictly before the literal-block marker `b"""`, per template
and compression flag, transcribed from the f-strings of src/app.py lines 15-52. -/
def loaderA0 : Template → Bool → List Nat
  | .standard, _ => strLit "import base64, zlib\nb = "
  | .compact, true => strLit "import base64,zlib;exec(zlib.decompress(base64.b64decode("
  | .compact, false => strLit "import base64;exec(base64.b64decode("
  | .obfuscated, true => strLit "import base64,zlib\n_x="
  | .obfuscated, false => strLit "import base64\n_x="

/-- Loader text strictly after the closing `"""` of the literal block. -/
def loaderZ0 : Template → Bool → List Nat
  | .standard, true =>
      strLit "\ntry:\n    src = zlib.decompress(base64.b64decode(b))\nexcept Exception:\n    raise SystemExit(\x27Decoding failed\x27)\nexec(src, globals())\n"
  | .standard, false =>
      strLit "\ntry:\n    src = base64.b64decode(b)\nexcept Exception:\n    raise SystemExit(\x27Decoding failed\x27)\nexec(src, globals())\n"
  | .compact, true => strLit ")),globals())"
  | .compact, false => strLit "),globals())"
  | .obfuscated, true =>
      strLit "\n_y=base64.b64decode\n_z=zlib.decompress\nexec(_z(_y(_x)),globals())\n"
  | .obfuscated, false => strLit "\n_y=base64.b64decode\nexec(_y(_x),globals())\n"

/-- Text up to and including the marker `b"""`. -/
def loaderPre (t : Template) (u : Bool) : List Nat := loaderA0 t u ++ [98, 34, 34, 34]

/-- Closing `"""` plus the trailing loader text. -/
def loaderPost (t : Template) (u : Bool) : List Nat := [34, 34, 34] ++ loaderZ0 t u

/-- Payload bytes embedded by `obfuscate_python_code`: the UTF-8 bytes of the
source, zlib-compressed at level 9 when compression is enabled. -/
def payloadBytes (src : List Nat) (u : Bool) : List Nat :=
  if u then zlib_compress (utf8Encode src) else utf8Encode src

/-- Translation of `obfuscate_python_code` (src/app.py lines 9-54): the base64
text of the payload spliced into the selected loader template. -/
def obfuscate_python_code (src : List Nat) (u : Bool) (t : Template) : List Nat :=
  loaderPre t u ++ b64encode (payloadBytes src u) ++ loaderPost t u

/-- Inner loop of `xor_bytes` (src/pyobf_xor_mashal.py lines 10-16):
`out[i] = b ^ key[i % klen]` over `enumerate(data)`; only reached when the
index computation is defined. -/
def xorLoopGo (key : List Nat) : Nat → List Nat → List Nat
  | _, [] => []
  | i, b :: rest => (b ^^^ key.getD (i % key.length) 0) :: xorLoopGo key (i + 1) rest

/-- Translation of `xor_bytes`: with an empty key and non-empty data the first
loop iteration evaluates `i % 0` and raises `ZeroDivisionError`, modelled as
`none`; otherwise the XOR-with-cyclically-repeated-key byte string. -/
def xor_bytes (data key : List Nat) : Option (List Nat) :=
  if key.length = 0 ∧ data ≠ [] then none
  else some (xorLoopGo key 0 data)

/-- Piece-splitting loop of `build_chunk_shuffle_wrapper` (src/pyobf_xor_mashal.py
lines 55-62): while bytes remain, draw a size and slice the next piece.  The
draw `random.randint(max(1, avg//2), max(1, avg*2))` is always at least 1
(both bounds are clamped with `max(1, ...)`); the model takes the sequence of
draws as `sizes` and records that lower bound with `max 1`.  Fuel equal to the
byte count suffices because every iteration consumes at least one byte. -/
def chunkGo (sizes : Nat → Nat) : Nat → Nat → List Nat → List (List Nat)
  | _, _, [] => []
  | 0, _, b => [b]
  | fuel + 1, k, b =>
      b.take (max 1 (sizes k)) :: chunkGo sizes fuel (k + 1) (b.drop (max 1 (sizes k)))

/-- The pieces produced by the splitting loop, in original order. -/
def chunkParts (b : List Nat) (sizes : Nat → Nat) : List (List Nat) :=
  chunkGo sizes b.length 0 b

/-- Clamp of the chunk count: `if chunks < 2: chunks = 2` (line 53-54). -/
def chunkClamp (chunks : Nat) : Nat := if chunks < 2 then 2 else chunks

/-- Reconstruction loop embedded in the generated chunk_shuffle loader
(src/pyobf_xor_mashal.py lines 79-81): `for i, idx in enumerate(_order):
_tmp[idx] = _pieces[i]`.  The generator always emits `_order` and `_pieces`
of equal length with in-range indices, so the out-of-range no-op of
`List.set` is never exercised. -/
def fillLoop (pieces : List (List Nat)) : Nat → List Nat → List (Option (List Nat)) →
    List (Option (List Nat))
  | _, [], tmp => tmp
  | i, idx :: rest, tmp => fillLoop pieces (i + 1) rest (tmp.set idx (some (pieces.getD i [])))

/-- The loader's `b''.join(base64.b64decode(x) for x in _tmp)`: a slot left
`None` or a base64 failure raises, modelled as `none`. -/
def joinDecode : List (Option (List Nat)) → Option (List Nat)
  | [] => some []
  | none :: _ => none
  | some x :: rest =>
      match b64decode x, joinDecode rest with
      | some d, some tail => some (d ++ tail)
      | _, _ => none

/-- The whole reconstruction performed by the generated chunk_shuffle loader
(lines 76-84): size the slot array to the piece count, place piece `i` at slot
`_order[i]`, then join the slots in index order. -/
def loaderReconstruct (pieces : List (List Nat)) (order : List Nat) : Option (List Nat) :=
  joinDecode (fillLoop pieces 0 order (List.replicate pieces.length none))

/-- chunk_shuffle encode followed by the loader's reconstruction.  Per
src/pyobf_xor_mashal.py lines 63-72 the emitted `_pieces` list is
`[base64.b64encode(p) for p in parts]` in ORIGINAL order, while `_order` is
the result of `random.shuffle` on `list(range(len(encoded)))`; both are
spliced verbatim into the loader, which then runs `loaderReconstruct`. -/
def chunk_roundtrip (b : List Nat) (sizes : Nat → Nat) (order : List Nat) : Option (List Nat) :=
  loaderReconstruct ((chunkParts b sizes).map b64encode) order

/-- Python `repr` of a str consisting of base64-alphabet characters: the text
in single quotes, no escapes needed. -/
def pyReprStr (l : List Nat) : List Nat := 39 :: (l ++ [39])

/-- `compress_b64` of src/pyobf.py lines 26-27: zlib-compress then base64. -/
def compress_b64 (s : List Nat) : List Nat := b64encode (zlib_compress s)

/-- Translation of `make_simple_wrapper` (src/pyobf.py lines 34-44): the text
of the generated simple-mode loader. -/
def make_simple_wrapper (source : List Nat) : List Nat :=
  strLit "# Obfuscated by pyobf (simple mode)\nimport base64, zlib, types, sys\n_payload = " ++
    pyReprStr (compress_b64 (utf8Encode source)) ++
    strLit "\n_data = zlib.decompress(base64.b64decode(_payload))\n# execute the code in a fresh globals dict to avoid leaking into wrapper scope\n_g = \x7b\x7d\nexec(compile(_data.decode(\x27utf-8\x27), \x27<obf>\x27, \x27exec\x27), _g)\n"

/-- Translation of the loader text of `make_ast_renamed_wrapper`
(src/pyobf.py lines 175-182), parameterized by the already-compressed
payload text it splices in. -/
def ast_renamed_wrapper_text (compressedB64 : List Nat) : List Nat :=
  strLit "# Obfuscated by pyobf (ast_rename mode)\nimport base64, zlib, sys\n_payload = " ++
    pyReprStr compressedB64 ++
    strLit "\n_data = zlib.decompress(base64.b64decode(_payload)).decode(\x27utf-8\x27)\n# Execute in isolated globals\n_g = \x7b\x7d\nexec(compile(_data, \x27<obf_ast>\x27, \x27exec\x27), _g)\n"

/-- Translation of `build_marshal_xor_wrapper` (src/pyobf_xor_mashal.py lines
23-46): the generated loader text.  `marshal.dumps(compile(source, ...))` is a
runtime-specific binary form, taken here as the parameter `marshalled`; `key`
is the drawn `secrets.token_bytes(key_len)` and `loaderName` the drawn
`make_random_ident(8)`. -/
def build_marshal_xor_wrapper (marshalled key loaderName : List Nat) : List Nat :=
  strLit "# Obfuscated by pyobf_xor_marshal (marshal_xor mode)\nimport base64, marshal\ndef " ++
    loaderName ++
    strLit "():\n    _k = base64.b64decode(" ++
    pyReprStr (b64encode key) ++
    strLit ")\n    _p = base64.b64decode(" ++
    pyReprStr (b64encode (xorLoopGo key 0 marshalled)) ++
    strLit ")\n    # xor back\n    _d = bytearray(len(_p))\n    for i, b in enumerate(_p):\n        _d[i] = b ^ _k[i % len(_k)]\n    _code = marshal.loads(bytes(_d))\n    exec(_code, \x7b\x7d)\n" ++
    loaderName ++ strLit "()\n"

/-- Comma-and-newline-joined list of indented `repr` strings, as built by
`pieces_list_repr` (src/pyobf_xor_mashal.py line 71). -/
def piecesListRepr : List (List Nat) → List Nat
  | [] => []
  | [p] => strLit "    " ++ pyReprStr p
  | p :: rest => strLit "    " ++ pyReprStr p ++ strLit ",\n" ++ piecesListRepr rest

/-- Python `repr` of a list of ints, e.g. `[1, 0]`. -/
def intListReprBody : List Nat → List Nat
  | [] => []
  | [n] => strLit (toString n)
  | n :: rest => strLit (toString n) ++ strLit ", " ++ intListReprBody rest

/-- Translation of `build_chunk_shuffle_wrapper`'s generated loader text
(src/pyobf_xor_mashal.py lines 70-87), parameterized by the emitted
(original-order) base64 pieces, the shuffled index list and the drawn loader
name. -/
def build_chunk_shuffle_wrapper_text (encoded : List (List Nat)) (order : List Nat)
    (loaderName : List Nat) : List Nat :=
  strLit "# Obfuscated by pyobf_xor_marshal (chunk_shuffle mode)\nimport base64\ndef " ++
    loaderName ++
    strLit "():\n    _pieces = [\n" ++
    piecesListRepr encoded ++
    strLit "\n]\n    _order = [" ++
    intListReprBody order ++
    strLit "]   # shuffled indexes\n    # rebuild original by placing each piece into correct slot\n    _tmp = [None] * len(_pieces)\n    for i, idx in enumerate(_order):\n        _tmp[idx] = _pieces[i]\n    # join and decode\n    _b = b\x27\x27.join(base64.b64decode(x) for x in _tmp)\n    exec(compile(_b.decode(\x27utf-8\x27), \x27<obf_chunk>\x27, \x27exec\x27), \x7b\x7d)\n" ++
    loaderName ++ strLit "()\n"

/-- Mini source tree for the renamer claims: expressions are names (Load
context), numeric and string constants, additions and the decode expression
that `StringEncoder` splices in. -/
inductive PyExpr where
  | name : String → PyExpr
  | num : Nat → PyExpr
  | strlit : String → PyExpr
  | add : PyExpr → PyExpr → PyExpr
  | decodeCall : List Nat → PyExpr
deriving DecidableEq

mutual

/-- Mini statements: single-Name-target assignment, expression statement,
return, and function definition (name, positional args, body).  The body is
a `PyStmts` sequence (mutually inductive with `PyStmt` so that the renamer
below is structurally recursive). -/
inductive PyStmt where
  | assign : String → PyExpr → PyStmt
  | exprStmt : PyExpr → PyStmt
  | ret : PyExpr → PyStmt
  | funcDef : String → List String → PyStmts → PyStmt

/-- A sequence of statements (a module or function body). -/
inductive PyStmts where
  | nil : PyStmts
  | cons : PyStmt → PyStmts → PyStmts

end

/-- The `Scope` class of src/pyobf.py lines 47-51: `defined` (written but
never read back by the renamer) and the rename dictionary. -/
structure PyScope where
  defined : List String
  renames : List (String × String)
deriving DecidableEq

/-- Renamer state: the scope chain (head is `self.scope`, tail its parents)
plus the count of random names drawn so far (used to index the draw
sequence `gen`). -/
structure RenSt where
  scopes : List PyScope
  counter : Nat
deriving DecidableEq

/-- Dictionary lookup in a rename table (each key is inserted at most once). -/
def alookup : List (String × String) → String → Option String
  | [], _ => none
  | (k, v) :: t, n => if k = n then some v else alookup t n

/-- `Renamer._new_name` (lines 68-73): reuse the name already drawn for `old`
in the current scope, else draw `gen counter` (modelling `rand_ident(8)`,
which performs no uniqueness check or retry) and record it. -/
def newName (gen : Nat → String) (st : RenSt) (old : String) : String × RenSt :=
  match st.scopes with
  | [] => (old, st)
  | sc :: rest =>
    match alookup sc.renames old with
    | some v => (v, st)
    | none =>
      let nv := gen st.counter
      (nv, ⟨{ sc with renames := (old, nv) :: sc.renames } :: rest, st.counter + 1⟩)

/-- `self.scope.defined.add(n)`. -/
def addDefined (st : RenSt) (n : String) : RenSt :=
  match st.scopes with
  | [] => st
  | sc :: rest => ⟨{ sc with defined := n :: sc.defined } :: rest, st.counter⟩

/-- `push_scope` (lines 62-63). -/
def pushScope (st : RenSt) : RenSt := ⟨⟨[], []⟩ :: st.scopes, st.counter⟩

/-- `pop_scope` (lines 65-66). -/
def popScope (st : RenSt) : RenSt := ⟨st.scopes.tail, st.counter⟩

/-- `visit_Name` name resolution (lines 121-127): walk `self.scope` and its
parents, replacing with the first rename found. -/
def walkRenames : List PyScope → String → Option String
  | [], _ => none
  | sc :: rest, n =>
    match alookup sc.renames n with
    | some v => some v
    | none => walkRenames rest n

/-- Python `n.startswith('__')`: the first two characters are underscores. -/
def startsDunder (s : String) : Bool :=
  match s.data with
  | c1 :: c2 :: _ => c1 == '_' && c2 == '_'
  | _ => false

/-- The guard `n not in self.builtins and not n.startswith('__')` used by
`visit_FunctionDef` (function names), `visit_ClassDef`, `visit_Assign` and
`visit_arg`.  `builtins` is `set(dir(__builtins__)) | {'True','False','None',
'__name__','__file__','__package__'}` (lines 57-60), an environment-dependent
set taken as the parameter `B`. -/
def renameOk (B : List String) (n : String) : Bool :=
  decide (n ∉ B) && !(startsDunder n)

/-- The argument loop of `visit_FunctionDef` (lines 85-88): for each `arg`,
`if arg.arg not in self.builtins:` — note that, unlike `visit_arg`, this
guard does NOT exclude names starting with `__`. -/
def renameArgsLoop (B : List String) (gen : Nat → String) :
    RenSt → List String → RenSt × List String
  | st, [] => (st, [])
  | st, a :: rest =>
    if a ∈ B then
      let (st2, tl) := renameArgsLoop B gen st rest
      (st2, a :: tl)
    else
      let st0 := addDefined st a
      let (na, st1) := newName gen st0 a
      let (st2, tl) := renameArgsLoop B gen st1 rest
      (st2, na :: tl)

/-- `visit_arg` (lines 137-142), reached again through `generic_visit` on the
`arguments` child of the `FunctionDef` node after the argument loop above has
already rewritten `arg.arg`. -/
def visitArgs (B : List String) (gen : Nat → String) :
    RenSt → List String → RenSt × List String
  | st, [] => (st, [])
  | st, a :: rest =>
    if renameOk B a then
      let (na, st1) := newName gen st a
      let (st2, tl) := visitArgs B gen st1 rest
      (st2, na :: tl)
    else
      let (st2, tl) := visitArgs B gen st rest
      (st2, a :: tl)

mutual

/-- `visit_Name` for Load-context names (Store-context targets are handled by
`visit_Assign` and left unchanged by `visit_Name`), plus `generic_visit`
recursion into compound expressions; constants are untouched. -/
def renExpr (B : List String) (gen : Nat → String) (st : RenSt) : PyExpr → RenSt × PyExpr
  | .name n =>
    match walkRenames st.scopes n with
    | some v => (st, .name v)
    | none => (st, .name n)
  | .num k => (st, .num k)
  | .strlit s => (st, .strlit s)
  | .decodeCall b => (st, .decodeCall b)
  | .add a b =>
    let (st1, a') := renExpr B gen st a
    let (st2, b') := renExpr B gen st1 b
    (st2, .add a' b')

/-- Statement dispatch of the `Renamer` `NodeTransformer` (src/pyobf.py lines
76-129).  `visit_FunctionDef`: rename the function name in the enclosing
scope when allowed, push a scope, run the argument loop, then `generic_visit`
— which visits the `arguments` child again (`visit_arg` on the already-renamed
argument tokens) before the body — and pop.  `visit_Assign`: rename
simple-Name targets when allowed, then visit the value. -/
def renStmt (B : List String) (gen : Nat → String) (st : RenSt) : PyStmt → RenSt × PyStmt
  | .assign t v =>
    if renameOk B t then
      let st0 := addDefined st t
      let (nt, st1) := newName gen st0 t
      let (st2, v') := renExpr B gen st1 v
      (st2, .assign nt v')
    else
      let (st2, v') := renExpr B gen st v
      (st2, .assign t v')
  | .exprStmt e =>
    let (st1, e') := renExpr B gen st e
    (st1, .exprStmt e')
  | .ret e =>
    let (st1, e') := renExpr B gen st e
    (st1, .ret e')
  | .funcDef f args body =>
    let (f', stA) :=
      if renameOk B f then
        let st0 := addDefined st f
        newName gen st0 f
      else (f, st)
    let st1 := pushScope stA
    let (st2, args1) := renameArgsLoop B gen st1 args
    let (st3, args2) := visitArgs B gen st2 args1
    let (st4, body') := renStmts B gen st3 body
    (popScope st4, .funcDef f' args2 body')

/-- Visit a statement list in order (module body or function body). -/
def renStmts (B : List String) (gen : Nat → String) (st : RenSt) : PyStmts → RenSt × PyStmts
  | .nil => (st, .nil)
  | .cons s rest =>
    let (st1, s') := renStmt B gen st s
    let (st2, rest') := renStmts B gen st1 rest
    (st2, .cons s' rest')

end

/-- Run the `Renamer` on a module: fresh state with only the module scope
(`Renamer.__init__`, lines 54-60) and counter 0, visiting the module body. -/
def renameModule (B : List String) (gen : Nat → String) (prog : PyStmts) : PyStmts :=
  (renStmts B gen ⟨[⟨[], []⟩], 0⟩ prog).2

/-- `StringEncoder.visit_Constant` (src/pyobf.py lines 153-160): a string
constant of length at least `threshold` is replaced by the runtime decode
expression `__import__('zlib').decompress(__import__('base64')
.b64decode("...")).decode('utf-8')` over the compressed, base64-coded UTF-8
bytes of the string; anything else is returned unchanged. -/
def visitConstant (threshold : Nat) : PyExpr → PyExpr
  | .strlit s =>
    if threshold ≤ s.length then
      .decodeCall (b64encode (zlib_compress (utf8Encode (s.data.map Char.toNat))))
    else .strlit s
  | e => e

/-- A concrete stand-in for `set(dir(__builtins__)) | {'True','False','None',
'__name__','__file__','__package__'}` used when evaluating the renamer on
concrete trees (any superset works the same for the trees below, whose user
names avoid builtins). -/
def stdBuiltins : List String :=
  ["print", "len", "range", "int", "str", "True", "False", "None",
   "__name__", "__file__", "__package__"]

/-- The shadowing scenario of the renaming-consistency claim:
`x = 1` / `x` / `def f(x): return x` / `x` — a module-scope `x`, references to
it before and after `f`, and a parameter `x` shadowing it inside `f`. -/
def shadowTree : PyStmts :=
  .cons (.assign "x" (.num 1))
    (.cons (.exprStmt (.name "x"))
      (.cons (.funcDef "f" ["x"] (.cons (.ret (.name "x")) .nil))
        (.cons (.exprStmt (.name "x")) .nil)))

/-- `def f(__x): return __x` — a double-underscore-prefixed parameter. -/
def dunderTree : PyStmts :=
  .cons (.funcDef "f" ["__x"] (.cons (.ret (.name "__x")) .nil)) .nil

/-- Deterministic name supply for concrete renamer runs: `_r0`, `_r1`, ... —
shaped like `rand_ident` output (one leading underscore, then alphanumerics). -/
def genR (i : Nat) : String := "_r".push (Char.ofNat (48 + i % 10))

/-! ### Support lemmas -/

theorem xorLoopGo_length (key : List Nat) : ∀ (i : Nat) (data : List Nat),
    (xorLoopGo key i data).length = data.length := by
  intro i data
  induction data generalizing i with
  | nil => rfl
  | cons b rest ih => simp [xorLoopGo, ih]

theorem xorLoopGo_involutive (key : List Nat) : ∀ (i : Nat) (data : List Nat),
    xorLoopGo key i (xorLoopGo key i data) = data := by
  intro i data
  induction data generalizing i with
  | nil => rfl
  | cons b rest ih => simp [xorLoopGo, Nat.xor_cancel_right, ih]

/-! ### Claims C8 and C10: xor_bytes -/

/-- C8: XOR with a cyclically repeated key is self-inverse: for every byte
sequence `B` and every non-empty key `K`, `xor_bytes (xor_bytes B K) K = B`
(both applications succeed, and the composite returns exactly `B`). -/
theorem claim_C8_xor_bytes_self_inverse (B K : List Nat) (h : K ≠ []) :
    (xor_bytes B K).bind (fun C => xor_bytes C K) = some B := by
  have hlen : K.length ≠ 0 := by
    intro h0
    exact h (List.length_eq_zero.mp h0)
  simp [xor_bytes, hlen, xorLoopGo_involutive]

/-- Witness for C8 at a concrete byte sequence and key. -/
theorem claim_C8_witness :
    (xor_bytes [1, 2, 3] [5, 6]).bind (fun C => xor_bytes C [5, 6]) = some [1, 2, 3] :=
  claim_C8_xor_bytes_self_inverse [1, 2, 3] [5, 6] (by decide)

/-- C10: `xor_bytes` is total only under the non-empty-key precondition: with
a non-empty key it returns a byte string of the same length as the data, while
an empty key and non-empty data hit `key[i % 0]`, a modulo-by-zero error,
modelled as `none`. -/
theorem claim_C10_xor_bytes_totality (B K : List Nat) :
    (K ≠ [] → ∃ C, xor_bytes B K = some C ∧ C.length = B.length) ∧
    (B ≠ [] → xor_bytes B [] = none) := by
  constructor
  · intro hK
    have hlen : K.length ≠ 0 := by
      intro h0
      exact hK (List.length_eq_zero.mp h0)
    exact ⟨xorLoopGo K 0 B, by simp [xor_bytes, hlen], xorLoopGo_length K 0 B⟩
  · intro hB
    simp [xor_bytes, hB]

/-- Witness for C10: a length-preserving run with a singleton key, and the
modulo-by-zero failure with the empty key. -/
theorem claim_C10_witness :
    (∃ C, xor_bytes [7, 8] [3] = some C ∧ C.length = [7, 8].length) ∧
    xor_bytes [9] [] = none :=
  ⟨(claim_C10_xor_bytes_totality [7, 8] [3]).1 (by decide),
   (claim_C10_xor_bytes_totality [9] []).2 (by decide)⟩

/-! ### Claim C1: chunk_shuffle round-trip -/

/-- C1: the claim states that for every byte sequence and chunk count at least
2, encoding with chunk_shuffle and reconstructing through the generated loader
yields the original bytes regardless of the drawn permutation.  The code
violates this: `build_chunk_shuffle_wrapper` emits `_pieces` in ORIGINAL order
(it base64-encodes `parts`, not a shuffled copy) while the emitted loader
places piece `i` at slot `_order[i]`, so any non-identity permutation scrambles
the output.  Failing input: bytes `b'ab'` (`[97, 98]`), chunk count 2 with the
legal size draws 1, 1 (each within `randint(max(1, avg//2), max(1, avg*2))`
for `avg = 1`), and the legal shuffle `[1, 0]` of `range(2)`: the loader
reconstructs `b'ba'`, not `b'ab'`. -/
theorem claim_C1_chunk_shuffle_roundtrip_fails :
    chunk_roundtrip [97, 98] (fun _ => 1) [1, 0] = some [98, 97] ∧
    chunk_roundtrip [97, 98] (fun _ => 1) [1, 0] ≠ some [97, 98] :=
  ⟨by rfl, by decide⟩

/-! ### Claim C7: literal threshold boundary -/

/-- C7: the literal encoder obeys a strict length boundary: a string constant
of length exactly `threshold - 1` is left completely untouched, and one of
length exactly `threshold` is replaced by the decode expression over the
compressed, base64-coded UTF-8 bytes of the string. -/
theorem claim_C7_literal_threshold_boundary (s : String) (th : Nat) (h : 1 ≤ th) :
    (s.length = th - 1 → visitConstant th (.strlit s) = .strlit s) ∧
    (s.length = th → visitConstant th (.strlit s) =
      .decodeCall (b64encode (zlib_compress (utf8Encode (s.data.map Char.toNat))))) := by
  constructor
  · intro hlen
    have hlt : ¬ th ≤ s.length := by omega
    simp [visitConstant, hlt]
  · intro hlen
    have hge : th ≤ s.length := by omega
    simp [visitConstant, hge]

/-- Witness for C7 at the default threshold 6: a 5-character string is
untouched and a 6-character string is transformed. -/
theorem claim_C7_witness :
    visitConstant 6 (.strlit "hello") = .strlit "hello" ∧
    visitConstant 6 (.strlit "hello!") =
      .decodeCall (b64encode (zlib_compress (utf8Encode ("hello!".data.map Char.toNat)))) :=
  ⟨(claim_C7_literal_threshold_boundary "hello" 6 (by decide)).1 (by decide),
   (claim_C7_literal_threshold_boundary "hello!" 6 (by decide)).2 (by decide)⟩


theorem b64val_b64chr : ∀ n, n < 64 → b64val (b64chr n) = some n := by decide

theorem b64chr_alpha : ∀ n, n < 64 → b64alpha (b64chr n) = true := by decide

theorem b64chr_ne_61 : ∀ n, n < 64 → b64chr n ≠ 61 := by decide

theorem b64encode_alpha (B : List Nat) (hB : ∀ b ∈ B, b < 256) :
    ∀ c ∈ b64encode B, b64alpha c = true := by
  induction B using b64encode.induct with
  | case1 => simp [b64encode]
  | case2 a =>
    have ha : a < 256 := hB a (by simp)
    intro c hc
    simp only [b64encode, List.mem_cons, List.not_mem_nil, or_false] at hc
    rcases hc with h | h | h | h <;> subst h
    · exact b64chr_alpha _ (by omega)
    · exact b64chr_alpha _ (by omega)
    · decide
    · decide
  | case3 a b =>
    have ha : a < 256 := hB a (by simp)
    have hb : b < 256 := hB b (by simp)
    intro c hc
    simp only [b64encode, List.mem_cons, List.not_mem_nil, or_false] at hc
    rcases hc with h | h | h | h <;> subst h
    · exact b64chr_alpha _ (by omega)
    · exact b64chr_alpha _ (by omega)
    · exact b64chr_alpha _ (by omega)
    · decide
  | case4 a b c rest ih =>
    have ha : a < 256 := hB a (by simp)
    have hb : b < 256 := hB b (by simp)
    have hc : c < 256 := hB c (by simp)
    have hrest : ∀ x ∈ rest, x < 256 := fun x hx => hB x (by simp [hx])
    intro x hx
    simp only [b64encode, List.mem_cons] at hx
    rcases hx with h | h | h | h | h
    · subst h; exact b64chr_alpha _ (by omega)
    · subst h; exact b64chr_alpha _ (by omega)
    · subst h; exact b64chr_alpha _ (by omega)
    · subst h; exact b64chr_alpha _ (by omega)
    · exact ih hrest x h

theorem b64encode_mod4 (B : List Nat) : (b64encode B).length % 4 = 0 := by
  induction B using b64encode.induct with
  | case1 => simp [b64encode]
  | case2 a => simp [b64encode]
  | case3 a b => simp [b64encode]
  | case4 a b c rest ih => simp [b64encode]; omega

theorem b64_roundtrip (B : List Nat) (hB : ∀ b ∈ B, b < 256) :
    b64decodeCore (b64encode B) = some B := by
  induction B using b64encode.induct with
  | case1 => rfl
  | case2 a =>
    have ha : a < 256 := hB a (by simp)
    have h1 : a / 4 < 64 := by omega
    have h2 : a % 4 * 16 < 64 := by omega
    show b64decodeCore [b64chr (a / 4), b64chr (a % 4 * 16), 61, 61] = some [a]
    unfold b64decodeCore
    rw [if_pos ⟨rfl, rfl, rfl⟩, b64val_b64chr _ h1, b64val_b64chr _ h2]
    show some [a / 4 * 4 + a % 4 * 16 / 16] = some [a]
    have e : a / 4 * 4 + a % 4 * 16 / 16 = a := by omega
    rw [e]
  | case3 a b =>
    have ha : a < 256 := hB a (by simp)
    have hb : b < 256 := hB b (by simp)
    have h1 : a / 4 < 64 := by omega
    have h2 : a % 4 * 16 + b / 16 < 64 := by omega
    have h3 : b % 16 * 4 < 64 := by omega
    show b64decodeCore [b64chr (a / 4), b64chr (a % 4 * 16 + b / 16), b64chr (b % 16 * 4), 61] =
      some [a, b]
    unfold b64decodeCore
    rw [if_neg (fun hcon => b64chr_ne_61 _ h3 hcon.1), if_pos ⟨rfl, rfl⟩,
      b64val_b64chr _ h1, b64val_b64chr _ h2, b64val_b64chr _ h3]
    show some [a / 4 * 4 + (a % 4 * 16 + b / 16) / 16,
      (a % 4 * 16 + b / 16) % 16 * 16 + b % 16 * 4 / 4] = some [a, b]
    have e1 : a / 4 * 4 + (a % 4 * 16 + b / 16) / 16 = a := by omega
    have e2 : (a % 4 * 16 + b / 16) % 16 * 16 + b % 16 * 4 / 4 = b := by omega
    rw [e1, e2]
  | case4 a b c rest ih =>
    have ha : a < 256 := hB a (by simp)
    have hb : b < 256 := hB b (by simp)
    have hc : c < 256 := hB c (by simp)
    have hrest : ∀ x ∈ rest, x < 256 := fun x hx => hB x (by simp [hx])
    have h1 : a / 4 < 64 := by omega
    have h2 : a % 4 * 16 + b / 16 < 64 := by omega
    have h3 : b % 16 * 4 + c / 64 < 64 := by omega
    have h4 : c % 64 < 64 := by omega
    show b64decodeCore (b64chr (a / 4) :: b64chr (a % 4 * 16 + b / 16) ::
      b64chr (b % 16 * 4 + c / 64) :: b64chr (c % 64) :: b64encode rest) = some (a :: b :: c :: rest)
    unfold b64decodeCore
    rw [if_neg (fun hcon => b64chr_ne_61 _ h3 hcon.1),
      if_neg (fun hcon => b64chr_ne_61 _ h4 hcon.1),
      b64val_b64chr _ h1, b64val_b64chr _ h2, b64val_b64chr _ h3, b64val_b64chr _ h4, ih hrest]
    show some ((a / 4 * 4 + (a % 4 * 16 + b / 16) / 16) ::
      ((a % 4 * 16 + b / 16) % 16 * 16 + (b % 16 * 4 + c / 64) / 4) ::
      ((b % 16 * 4 + c / 64) % 4 * 64 + c % 64) :: rest) = some (a :: b :: c :: rest)
    have e1 : a / 4 * 4 + (a % 4 * 16 + b / 16) / 16 = a := by omega
    have e2 : (a % 4 * 16 + b / 16) % 16 * 16 + (b % 16 * 4 + c / 64) / 4 = b := by omega
    have e3 : (b % 16 * 4 + c / 64) % 4 * 64 + c % 64 = c := by omega
    rw [e1, e2, e3]


theorem b64decodeCore_none_of_mod : ∀ (l : List Nat), l.length % 4 ≠ 0 → b64decodeCore l = none
  | [], h => absurd (by simp : ([] : List Nat).length % 4 = 0) h
  | [_], _ => rfl
  | [_, _], _ => rfl
  | [_, _, _], _ => rfl
  | c1 :: c2 :: c3 :: c4 :: rest, h => by
      have hr : rest.length % 4 ≠ 0 := by
        simp only [List.length_cons] at h
        omega
      have hrest := b64decodeCore_none_of_mod rest hr
      have hrne : rest ≠ [] := by
        intro he
        subst he
        simp at hr
      unfold b64decodeCore
      rw [if_neg (fun hc => hrne hc.2.2), if_neg (fun hc => hrne hc.2)]
      cases b64val c1 <;> cases b64val c2 <;> cases b64val c3 <;> cases b64val c4 <;>
        simp [hrest]

theorem utf8EncChar_ne_nil (c : Nat) : utf8EncChar c ≠ [] := by
  unfold utf8EncChar
  split_ifs <;> simp

theorem utf8EncChar_lt256 (c : Nat) (hc : c < 1114112) : ∀ b ∈ utf8EncChar c, b < 256 := by
  unfold utf8EncChar
  split_ifs with h1 h2 h3 <;> intro b hb <;> simp at hb
  · omega
  · rcases hb with h | h <;> omega
  · rcases hb with h | h | h <;> omega
  · rcases hb with h | h | h | h <;> omega

theorem utf8DecodeStep_enc (c : Nat) (r : List Nat) (hc : c < 1114112) :
    utf8DecodeStep (utf8EncChar c ++ r) = some (c, r) := by
  unfold utf8EncChar
  by_cases h1 : c < 128
  · simp [h1, utf8DecodeStep]
  · by_cases h2 : c < 2048
    · have e1 : ¬(192 + c / 64 < 128) := by omega
      have e2 : ¬(192 + c / 64 < 192) := by omega
      have e3 : 192 + c / 64 < 224 := by omega
      have e4 : 128 ≤ 128 + c % 64 ∧ 128 + c % 64 < 192 := by omega
      simp [h1, h2, utf8DecodeStep, e1, e2, e3, e4]
      omega
    · by_cases h3 : c < 65536
      · have e1 : ¬(224 + c / 4096 < 128) := by omega
        have e2 : ¬(224 + c / 4096 < 192) := by omega
        have e3 : ¬(224 + c / 4096 < 224) := by omega
        have e4 : 224 + c / 4096 < 240 := by omega
        have e5 : (128 ≤ 128 + c / 64 % 64 ∧ 128 + c / 64 % 64 < 192) ∧
            128 ≤ 128 + c % 64 ∧ 128 + c % 64 < 192 := by omega
        simp [h1, h2, h3, utf8DecodeStep, e1, e2, e3, e4, e5]
        omega
      · have e1 : ¬(240 + c / 262144 < 128) := by omega
        have e2 : ¬(240 + c / 262144 < 192) := by omega
        have e3 : ¬(240 + c / 262144 < 224) := by omega
        have e4 : ¬(240 + c / 262144 < 240) := by omega
        have e5 : 240 + c / 262144 < 248 := by omega
        have e6 : (128 ≤ 128 + c / 4096 % 64 ∧ 128 + c / 4096 % 64 < 192) ∧
            (128 ≤ 128 + c / 64 % 64 ∧ 128 + c / 64 % 64 < 192) ∧
            128 ≤ 128 + c % 64 ∧ 128 + c % 64 < 192 := by omega
        simp [h1, h2, h3, utf8DecodeStep, e1, e2, e3, e4, e5, e6]
        omega

theorem utf8Encode_nil : utf8Encode [] = [] := rfl

theorem utf8Encode_cons (c : Nat) (rest : List Nat) :
    utf8Encode (c :: rest) = utf8EncChar c ++ utf8Encode rest := by
  simp [utf8Encode]

theorem utf8Encode_length_ge (cps : List Nat) : cps.length ≤ (utf8Encode cps).length := by
  induction cps with
  | nil => simp [utf8Encode]
  | cons c rest ih =>
    rw [utf8Encode_cons]
    have h1 : 1 ≤ (utf8EncChar c).length := by
      have := utf8EncChar_ne_nil c
      cases h : utf8EncChar c with
      | nil => exact absurd h this
      | cons x xs => simp
    simp only [List.length_append, List.length_cons]
    omega

theorem utf8Encode_lt256 (cps : List Nat) (h : ∀ c ∈ cps, c < 1114112) :
    ∀ b ∈ utf8Encode cps, b < 256 := by
  induction cps with
  | nil => simp [utf8Encode]
  | cons c rest ih =>
    rw [utf8Encode_cons]
    intro b hb
    rcases List.mem_append.mp hb with hb | hb
    · exact utf8EncChar_lt256 c (h c (by simp)) b hb
    · exact ih (fun x hx => h x (by simp [hx])) b hb

theorem utf8DecodeGo_encode (cps : List Nat) : ∀ fuel, cps.length ≤ fuel →
    (∀ c ∈ cps, c < 1114112) → utf8DecodeGo fuel (utf8Encode cps) = some cps := by
  induction cps with
  | nil => intro fuel _ _; simp [utf8Encode_nil, utf8DecodeGo]
  | cons c rest ih =>
    intro fuel hfuel hval
    rw [utf8Encode_cons]
    cases fuel with
    | zero => simp at hfuel
    | succ f =>
      obtain ⟨x, xs, hx⟩ := List.exists_cons_of_ne_nil
        (show utf8EncChar c ++ utf8Encode rest ≠ [] by
          simp [utf8EncChar_ne_nil c])
      rw [hx]
      show utf8DecodeGo (f + 1) (x :: xs) = some (c :: rest)
      rw [utf8DecodeGo, ← hx, utf8DecodeStep_enc c _ (hval c (by simp))]
      show (match utf8DecodeGo f (utf8Encode rest) with
            | none => none
            | some cs => some (c :: cs)) = some (c :: rest)
      rw [ih f (by simpa using hfuel) (fun y hy => hval y (by simp [hy]))]
      simp

theorem utf8_roundtrip (cps : List Nat) (h : ∀ c ∈ cps, c < 1114112) :
    utf8Decode (utf8Encode cps) = some cps :=
  utf8DecodeGo_encode cps (utf8Encode cps).length (utf8Encode_length_ge cps) h

theorem getD_drop (l : List Nat) (n i : Nat) : (l.drop n).getD i 0 = l.getD (n + i) 0 := by
  simp [List.getD_eq_getElem?_getD, List.getElem?_drop]

theorem getD_mem_of_lt (l : List Nat) (n : Nat) (h : n < l.length) : l.getD n 0 ∈ l := by
  rw [List.getD_eq_getElem?_getD, List.getElem?_eq_getElem h]
  exact List.getElem_mem h

theorem leadsWith_iff (p : List Nat) : ∀ (l : List Nat), leadsWith p l = true ↔
    p.length ≤ l.length ∧ ∀ i < p.length, p.getD i 0 = l.getD i 0 := by
  induction p with
  | nil => intro l; simp [leadsWith]
  | cons a p ih =>
    intro l
    cases l with
    | nil => simp [leadsWith]
    | cons b l =>
      simp only [leadsWith, Bool.and_eq_true, beq_iff_eq, ih, List.length_cons]
      constructor
      · rintro ⟨hab, hlen, hpt⟩
        refine ⟨by omega, ?_⟩
        intro i hi
        cases i with
        | zero => simpa using hab
        | succ j => simpa using hpt j (by omega)
      · rintro ⟨hlen, hpt⟩
        refine ⟨by simpa using hpt 0 (by omega), by omega, ?_⟩
        intro i hi
        simpa using hpt (i + 1) (by omega)

theorem containsSub_iff (p : List Nat) : ∀ (l : List Nat), containsSub p l = true ↔
    ∃ q, leadsWith p (l.drop q) = true := by
  intro l
  induction l with
  | nil =>
    simp only [containsSub]
    constructor
    · intro h; exact ⟨0, h⟩
    · rintro ⟨q, hq⟩; simpa [List.drop_nil] using hq
  | cons a t ih =>
    simp only [containsSub, Bool.or_eq_true, ih]
    constructor
    · rintro (h | ⟨q, hq⟩)
      · exact ⟨0, h⟩
      · exact ⟨q + 1, hq⟩
    · rintro ⟨q, hq⟩
      cases q with
      | zero => exact Or.inl hq
      | succ q' => exact Or.inr ⟨q', hq⟩

theorem leadsWith_append_mono (p : List Nat) : ∀ (X Y : List Nat),
    leadsWith p X = true → leadsWith p (X ++ Y) = true := by
  induction p with
  | nil => intro X Y _; rfl
  | cons a p ih =>
    intro X Y h
    cases X with
    | nil => simp [leadsWith] at h
    | cons b X' =>
      simp only [leadsWith, Bool.and_eq_true] at h ⊢
      exact ⟨h.1, ih X' Y h.2⟩

theorem containsSub_append_left (p : List Nat) : ∀ (A B : List Nat),
    containsSub p A = true → containsSub p (A ++ B) = true := by
  intro A B
  induction A with
  | nil =>
    intro h
    simp only [containsSub] at h
    have hp : p = [] := by cases p with
      | nil => rfl
      | cons x xs => simp [leadsWith] at h
    subst hp
    cases B <;> simp [containsSub, leadsWith]
  | cons a A' ih =>
    intro h
    simp only [containsSub, Bool.or_eq_true] at h ⊢
    rcases h with h | h
    · exact Or.inl (leadsWith_append_mono p (a :: A') B h)
    · exact Or.inr (ih h)

theorem containsSub_append_right (p : List Nat) : ∀ (A B : List Nat),
    containsSub p B = true → containsSub p (A ++ B) = true := by
  intro A B h
  induction A with
  | nil => simpa using h
  | cons a A' ih =>
    simp only [List.cons_append, containsSub, Bool.or_eq_true]
    exact Or.inr ih

theorem b64alpha_class (x : Nat) (h : b64alpha x = true) : classChar x = true := by
  simp only [b64alpha, decide_eq_true_eq] at h
  simp only [classChar, decide_eq_true_eq]
  omega

theorem b64alpha_ne34 (x : Nat) (h : b64alpha x = true) : x ≠ 34 := by
  simp only [b64alpha, decide_eq_true_eq] at h
  omega

theorem b64alpha_ne10 (x : Nat) (h : b64alpha x = true) : x ≠ 10 := by
  simp only [b64alpha, decide_eq_true_eq] at h
  omega

theorem b64alpha_ne98_of_not (c : Nat) (h : b64alpha c = false) : c ≠ 98 := by
  intro he
  subst he
  simp [b64alpha] at h

theorem matchAt_gram (l : List Nat) (h : matchAt l ≠ none) :
    4 ≤ l.length ∧ l.getD 0 0 = 98 ∧ l.getD 1 0 = 34 ∧ l.getD 2 0 = 34 ∧ l.getD 3 0 = 34 := by
  unfold matchAt at h
  by_cases hlw : leadsWith [98, 34, 34, 34] l = true
  · have hc := (leadsWith_iff _ l).mp hlw
    refine ⟨by simpa using hc.1, ?_, ?_, ?_, ?_⟩
    · simpa using (hc.2 0 (by norm_num)).symm
    · simpa using (hc.2 1 (by norm_num)).symm
    · simpa using (hc.2 2 (by norm_num)).symm
    · simpa using (hc.2 3 (by norm_num)).symm
  · rw [if_neg hlw] at h
    exact absurd rfl h

theorem matchAt_none_of_getD0 (l : List Nat) (h : l.getD 0 0 ≠ 98) : matchAt l = none := by
  by_contra hne
  exact h (matchAt_gram l hne).2.1

theorem matchAt_none_of_getD1 (l : List Nat) (h : l.getD 1 0 ≠ 34) : matchAt l = none := by
  by_contra hne
  exact h (matchAt_gram l hne).2.2.1

theorem triple34_false_of_getD0 (l : List Nat) (h : l.getD 0 0 ≠ 34) :
    leadsWith [34, 34, 34] l = false := by
  by_contra hne
  have hlw : leadsWith [34, 34, 34] l = true := by
    cases hv : leadsWith [34, 34, 34] l
    · exact absurd hv hne
    · rfl
  have hc := (leadsWith_iff _ l).mp hlw
  exact h (by simpa using (hc.2 0 (by norm_num)).symm)

theorem triple34_false_of_getD1 (l : List Nat) (h : l.getD 1 0 ≠ 34) :
    leadsWith [34, 34, 34] l = false := by
  by_contra hne
  have hlw : leadsWith [34, 34, 34] l = true := by
    cases hv : leadsWith [34, 34, 34] l
    · exact absurd hv hne
    · rfl
  have hc := (leadsWith_iff _ l).mp hlw
  exact h (by simpa using (hc.2 1 (by norm_num)).symm)

theorem triple34_false_in_34free (Z : List Nat) (hZ : ∀ x ∈ Z, x ≠ 34) (k : Nat) :
    leadsWith [34, 34, 34] (Z.drop k) = false := by
  apply triple34_false_of_getD0
  rw [getD_drop]
  by_cases hk : k < Z.length
  · exact hZ _ (getD_mem_of_lt Z _ (by omega))
  · rw [List.getD_eq_default]
    · norm_num
    · omega

theorem runLen_append_stop (P : List Nat) (hP : ∀ x ∈ P, classChar x = true) (d : Nat)
    (hd : classChar d = false) (r : List Nat) : runLen (P ++ d :: r) = P.length := by
  induction P with
  | nil => simp [runLen, hd]
  | cons a t ih =>
    have ha : classChar a = true := hP a (by simp)
    simp only [List.cons_append, runLen, ha, if_true, List.append_eq]
    rw [ih (fun x hx => hP x (by simp [hx]))]
    simp

theorem findBlock_cons_none (a : Nat) (t : List Nat) (h : matchAt (a :: t) = none) :
    findBlock (a :: t) = findBlock t := by
  simp [findBlock, h]

theorem findBlock_skip (A0 : List Nat) (hA : ∀ x ∈ A0, x ≠ 34) :
    ∀ (l : List Nat), l.getD 0 0 ≠ 34 → findBlock (A0 ++ l) = findBlock l := by
  induction A0 with
  | nil => intro l _; rfl
  | cons a A0' ih =>
    intro l hl
    have hnone : matchAt (a :: (A0' ++ l)) = none := by
      apply matchAt_none_of_getD1
      show (a :: (A0' ++ l)).getD 1 0 ≠ 34
      cases A0' with
      | nil => simpa using hl
      | cons b t => simpa using hA b (by simp)
    rw [List.cons_append, findBlock_cons_none a (A0' ++ l) hnone]
    exact ih (fun x hx => hA x (by simp [hx])) l hl

theorem matchAt_block (P Z : List Nat) (hP : P ≠ []) (hPc : ∀ x ∈ P, classChar x = true) :
    matchAt (98 :: 34 :: 34 :: 34 :: (P ++ 34 :: 34 :: 34 :: Z)) = some P := by
  unfold matchAt
  rw [if_pos (by simp [leadsWith])]
  have hdrop : List.drop 4 (98 :: 34 :: 34 :: 34 :: (P ++ 34 :: 34 :: 34 :: Z)) =
      P ++ 34 :: 34 :: 34 :: Z := rfl
  rw [hdrop]
  have hrun : runLen (P ++ 34 :: 34 :: 34 :: Z) = P.length :=
    runLen_append_stop P hPc 34 (by decide) (34 :: 34 :: Z)
  rw [hrun]
  have hk : 1 ≤ P.length := by
    cases P with
    | nil => exact absurd rfl hP
    | cons x xs => simp
  rw [if_pos ⟨hk, by rw [List.drop_left]; simp [leadsWith]⟩]
  rw [List.take_left]

theorem findBlock_none_iff (l : List Nat) :
    findBlock l = none ↔ ∀ q, matchAt (l.drop q) = none := by
  induction l with
  | nil =>
    constructor
    · intro _ q
      rw [List.drop_nil]
      rfl
    · intro _
      rfl
  | cons a t ih =>
    constructor
    · intro h q
      have hma : matchAt (a :: t) = none := by
        by_cases hm : matchAt (a :: t) = none
        · exact hm
        · exfalso
          unfold findBlock at h
          cases hv : matchAt (a :: t) with
          | none => exact hm hv
          | some g => rw [hv] at h; exact Option.noConfusion h
      cases q with
      | zero => exact hma
      | succ q' =>
        have ht : findBlock t = none := by
          unfold findBlock at h
          rw [hma] at h
          exact h
        exact (ih.mp ht) q'
    · intro h
      have hma : matchAt (a :: t) = none := h 0
      unfold findBlock
      rw [hma]
      exact ih.mpr (fun q => h (q + 1))

theorem findBlock_block (A0 P Z : List Nat) (hA : ∀ x ∈ A0, x ≠ 34) (hP : P ≠ [])
    (hPc : ∀ x ∈ P, classChar x = true) :
    findBlock (A0 ++ 98 :: 34 :: 34 :: 34 :: (P ++ 34 :: 34 :: 34 :: Z)) = some P := by
  rw [findBlock_skip A0 hA _ (by simp)]
  show findBlock (98 :: (34 :: 34 :: 34 :: (P ++ 34 :: 34 :: 34 :: Z))) = some P
  unfold findBlock
  rw [matchAt_block P Z hP hPc]

theorem W_char (X Y Z0 : List Nat) (c : Nat)
    (hX : ∀ x ∈ X, b64alpha x = true) (hY : ∀ x ∈ Y, b64alpha x = true)
    (hZ : ∀ x ∈ Z0, x ≠ 34) :
    ∀ i, (X ++ c :: (Y ++ 34 :: 34 :: 34 :: Z0)).getD i 0 = 34 →
      (i = X.length ∧ c = 34) ∨
      (X.length + Y.length + 1 ≤ i ∧ i ≤ X.length + Y.length + 3) := by
  intro i hi
  by_cases h1 : i < X.length
  · rw [List.getD_append _ _ _ _ h1] at hi
    exact absurd hi (b64alpha_ne34 _ (hX _ (getD_mem_of_lt X i h1)))
  · rw [List.getD_append_right _ _ _ _ (by omega)] at hi
    by_cases h2 : i = X.length
    · subst h2
      simp at hi
      exact Or.inl ⟨rfl, hi⟩
    · have h3 : 1 ≤ i - X.length := by omega
      rw [show i - X.length = (i - X.length - 1) + 1 by omega] at hi
      simp only [List.getD_cons_succ] at hi
      by_cases h4 : i - X.length - 1 < Y.length
      · rw [List.getD_append _ _ _ _ h4] at hi
        exact absurd hi (b64alpha_ne34 _ (hY _ (getD_mem_of_lt Y _ h4)))
      · rw [List.getD_append_right _ _ _ _ (by omega)] at hi
        by_cases h5 : i - X.length - 1 - Y.length < 3
        · right
          omega
        · rw [show i - X.length - 1 - Y.length =
            (i - X.length - 1 - Y.length - 3) + 1 + 1 + 1 by omega] at hi
          simp only [List.getD_cons_succ] at hi
          by_cases h6 : i - X.length - 1 - Y.length - 3 < Z0.length
          · exact absurd hi (hZ _ (getD_mem_of_lt Z0 _ h6))
          · rw [List.getD_eq_default _ _ (by omega)] at hi
            exact absurd hi (by norm_num)

theorem findBlock_W_none (X Y Z0 : List Nat) (c : Nat)
    (hX : ∀ x ∈ X, b64alpha x = true) (hY : ∀ x ∈ Y, b64alpha x = true)
    (hZ : ∀ x ∈ Z0, x ≠ 34)
    (hcase : (classChar c = false ∧ c ≠ 34) ∨ (c = 34 ∧ Y ≠ [])) :
    findBlock (X ++ c :: (Y ++ 34 :: 34 :: 34 :: Z0)) = none := by
  rw [findBlock_none_iff]
  intro q
  by_cases hq : q = X.length + Y.length
  · unfold matchAt
    by_cases hlw : leadsWith [98, 34, 34, 34]
        ((X ++ c :: (Y ++ 34 :: 34 :: 34 :: Z0)).drop q) = true
    · rw [if_pos hlw, if_neg]
      rintro ⟨-, htr⟩
      have hdrop4 : ((X ++ c :: (Y ++ 34 :: 34 :: 34 :: Z0)).drop q).drop 4 = Z0 := by
        rw [List.drop_drop]
        have hW : X ++ c :: (Y ++ 34 :: 34 :: 34 :: Z0) =
            (X ++ c :: (Y ++ [34, 34, 34])) ++ Z0 := by
          simp
        rw [hW]
        have hlen : q + 4 = (X ++ c :: (Y ++ [34, 34, 34])).length := by
          simp
          omega
        rw [hlen, List.drop_left]
      rw [hdrop4] at htr
      rw [triple34_false_in_34free Z0 hZ _] at htr
      exact Bool.noConfusion htr
    · rw [if_neg hlw]
  · by_contra hcon
    obtain ⟨hlen, h0, h1, h2, h3⟩ := matchAt_gram _ hcon
    rw [getD_drop] at h1 h2 h3
    rw [List.length_drop] at hlen
    have hWlen : (X ++ c :: (Y ++ 34 :: 34 :: 34 :: Z0)).length =
        X.length + Y.length + Z0.length + 4 := by
      simp
      omega
    have f1 := W_char X Y Z0 c hX hY hZ (q + 1) h1
    have f2 := W_char X Y Z0 c hX hY hZ (q + 2) h2
    have f3 := W_char X Y Z0 c hX hY hZ (q + 3) h3
    rcases hcase with ⟨hc1, hc2⟩ | ⟨hc1, hc2⟩
    · rcases f1 with ⟨e1, he1⟩ | hb1
      · exact hc2 he1
      rcases f2 with ⟨e2, he2⟩ | hb2
      · exact hc2 he2
      rcases f3 with ⟨e3, he3⟩ | hb3
      · exact hc2 he3
      omega
    · have hy1 : 1 ≤ Y.length := by
        cases Y with
        | nil => exact absurd rfl hc2
        | cons y ys => simp
      rcases f1 with ⟨e1, he1⟩ | hb1 <;> rcases f2 with ⟨e2, he2⟩ | hb2 <;>
        rcases f3 with ⟨e3, he3⟩ | hb3 <;> omega

theorem class_not_alpha_eq10 (c : Nat) (h1 : classChar c = true) (h2 : b64alpha c = false) :
    c = 10 := by
  simp only [classChar, decide_eq_true_eq] at h1
  rcases h1 with h | h | h | h | h | h | h <;>
    first
      | exact h
      | (exfalso
         have hb : b64alpha c = true := by
           simp only [b64alpha, decide_eq_true_eq]
           omega
         rw [hb] at h2
         exact Bool.noConfusion h2)

theorem alpha_filter_ne10 (l : List Nat) (hl : ∀ x ∈ l, b64alpha x = true) :
    l.filter (fun c => c != 10) = l := by
  rw [List.filter_eq_self]
  intro a ha
  simpa using b64alpha_ne10 a (hl a ha)

theorem matchAt_marker_corrupt (X Y Z0 : List Nat) (c : Nat)
    (hX : ∀ x ∈ X, b64alpha x = true) (hY : ∀ x ∈ Y, b64alpha x = true)
    (hc : classChar c = false)
    (hcase : c ≠ 34 ∨ Y ≠ []) :
    matchAt (98 :: 34 :: 34 :: 34 :: (X ++ c :: (Y ++ 34 :: 34 :: 34 :: Z0))) = none := by
  unfold matchAt
  rw [if_pos (by simp [leadsWith])]
  have hdrop : List.drop 4 (98 :: 34 :: 34 :: 34 :: (X ++ c :: (Y ++ 34 :: 34 :: 34 :: Z0))) =
      X ++ c :: (Y ++ 34 :: 34 :: 34 :: Z0) := rfl
  rw [hdrop]
  have hrun : runLen (X ++ c :: (Y ++ 34 :: 34 :: 34 :: Z0)) = X.length :=
    runLen_append_stop X (fun x hx => b64alpha_class x (hX x hx)) c hc _
  rw [hrun, if_neg]
  rintro ⟨-, htr⟩
  rw [List.drop_left] at htr
  rcases hcase with hc34 | hYne
  · rw [triple34_false_of_getD0 _ (by simpa using hc34)] at htr
    exact Bool.noConfusion htr
  · have hg1 : (c :: (Y ++ 34 :: 34 :: 34 :: Z0)).getD 1 0 ≠ 34 := by
      cases Y with
      | nil => exact absurd rfl hYne
      | cons y ys =>
        simpa using b64alpha_ne34 y (hY y (by simp))
    rw [triple34_false_of_getD1 _ hg1] at htr
    exact Bool.noConfusion htr

theorem deobf_corrupted_master (A0 Z0 P : List Nat) (j c : Nat)
    (hA : ∀ x ∈ A0, x ≠ 34) (hZ : ∀ x ∈ Z0, x ≠ 34)
    (hP : ∀ x ∈ P, b64alpha x = true) (hmod : P.length % 4 = 0)
    (hj : j < P.length) (hc : b64alpha c = false) :
    deobfuscate_python_code
        (A0 ++ 98 :: 34 :: 34 :: 34 :: (P.set j c ++ 34 :: 34 :: 34 :: Z0)) = .errNoBlock ∨
    deobfuscate_python_code
        (A0 ++ 98 :: 34 :: 34 :: 34 :: (P.set j c ++ 34 :: 34 :: 34 :: Z0)) = .errCaught := by
  have hsplit : P.set j c = P.take j ++ c :: P.drop (j + 1) := List.set_eq_take_cons_drop c hj
  have hXa : ∀ x ∈ P.take j, b64alpha x = true := fun x hx => hP x (List.take_subset j P hx)
  have hYa : ∀ x ∈ P.drop (j + 1), b64alpha x = true :=
    fun x hx => hP x (List.drop_subset (j + 1) P hx)
  have hXlen : (P.take j).length = j := by
    rw [List.length_take]
    omega
  have hYlen : (P.drop (j + 1)).length = P.length - (j + 1) := by
    rw [List.length_drop]
  have hE1 : P.set j c ++ 34 :: 34 :: 34 :: Z0 =
      P.take j ++ c :: (P.drop (j + 1) ++ 34 :: 34 :: 34 :: Z0) := by
    rw [hsplit]
    simp
  by_cases hclass : classChar c = true
  · -- the altered character is the newline 10: the regular expression still
    -- matches, the newline is stripped, and base64 fails on length 4k-1
    have hc10 : c = 10 := class_not_alpha_eq10 c hclass hc
    right
    have hfb : findBlock (A0 ++ 98 :: 34 :: 34 :: 34 :: (P.set j c ++ 34 :: 34 :: 34 :: Z0)) =
        some (P.set j c) := by
      apply findBlock_block A0 (P.set j c) Z0 hA
      · intro he
        have : (P.set j c).length = 0 := by rw [he]; rfl
        rw [List.length_set] at this
        omega
      · intro x hx
        rw [hsplit] at hx
        simp only [List.mem_append, List.mem_cons] at hx
        rcases hx with hx | hx | hx
        · exact b64alpha_class x (hXa x hx)
        · rw [hx]
          exact hclass
        · exact b64alpha_class x (hYa x hx)
    have hfil : (P.set j c).filter (fun x => x != 10) = P.take j ++ P.drop (j + 1) := by
      rw [hsplit, List.filter_append, alpha_filter_ne10 _ hXa, hc10]
      simp [List.filter_cons, alpha_filter_ne10 _ hYa]
    have hlen : (P.take j ++ P.drop (j + 1)).length % 4 ≠ 0 := by
      rw [List.length_append, hXlen, hYlen]
      omega
    have hdec : b64decode ((P.set j c).filter (fun x => x != 10)) = none := by
      rw [hfil]
      exact b64decodeCore_none_of_mod _ hlen
    simp only [deobfuscate_python_code, hfb, hdec]
  · have hclass' : classChar c = false := by
      cases hv : classChar c
      · rfl
      · exact absurd hv hclass
    by_cases h34 : c = 34 ∧ P.drop (j + 1) = []
    · -- the altered character is a quote at the last payload position: the
      -- block still matches with the last character shaved off
      obtain ⟨hc34, hYnil⟩ := h34
      right
      have hjlast : j + 1 = P.length := by
        have := hYlen
        rw [hYnil] at this
        simp at this
        omega
      have hfb : findBlock
          (A0 ++ 98 :: 34 :: 34 :: 34 :: (P.set j c ++ 34 :: 34 :: 34 :: Z0)) =
          some (P.take j) := by
        rw [hE1, hYnil, hc34]
        rw [findBlock_skip A0 hA _ (by simp)]
        show findBlock (98 :: (34 :: 34 :: 34 ::
          (P.take j ++ 34 :: ([] ++ 34 :: 34 :: 34 :: Z0)))) = some (P.take j)
        unfold findBlock
        rw [show matchAt (98 :: 34 :: 34 :: 34 ::
            (P.take j ++ 34 :: ([] ++ 34 :: 34 :: 34 :: Z0))) = some (P.take j) from ?_]
        unfold matchAt
        rw [if_pos (by simp [leadsWith])]
        have hdrop : List.drop 4 (98 :: 34 :: 34 :: 34 ::
            (P.take j ++ 34 :: ([] ++ 34 :: 34 :: 34 :: Z0))) =
            P.take j ++ 34 :: ([] ++ 34 :: 34 :: 34 :: Z0) := rfl
        rw [hdrop]
        have hrun : runLen (P.take j ++ 34 :: ([] ++ 34 :: 34 :: 34 :: Z0)) =
            (P.take j).length :=
          runLen_append_stop _ (fun x hx => b64alpha_class x (hXa x hx)) 34 (by decide) _
        rw [hrun, if_pos ⟨by rw [hXlen]; omega, by rw [List.drop_left]; simp [leadsWith]⟩]
        rw [List.take_left]
      have hlen : (P.take j).length % 4 ≠ 0 := by
        rw [hXlen]
        omega
      have hdec : b64decode ((P.take j).filter (fun x => x != 10)) = none := by
        rw [alpha_filter_ne10 _ hXa]
        exact b64decodeCore_none_of_mod _ hlen
      simp only [deobfuscate_python_code, hfb, hdec]
    · -- no match anywhere: the decoder reports the missing-block error
      left
      have hcase : c ≠ 34 ∨ P.drop (j + 1) ≠ [] := by
        by_cases hcc : c = 34
        · right
          intro hy
          exact h34 ⟨hcc, hy⟩
        · exact Or.inl hcc
      have hfb : findBlock
          (A0 ++ 98 :: 34 :: 34 :: 34 :: (P.set j c ++ 34 :: 34 :: 34 :: Z0)) = none := by
        rw [hE1]
        rw [findBlock_skip A0 hA _ (by simp)]
        rw [findBlock_cons_none _ _
          (matchAt_marker_corrupt _ _ Z0 c hXa hYa hclass' hcase)]
        rw [findBlock_cons_none _ _ (matchAt_none_of_getD0 _ (by simp))]
        rw [findBlock_cons_none _ _ (matchAt_none_of_getD0 _ (by simp))]
        rw [findBlock_cons_none _ _ (matchAt_none_of_getD0 _ (by simp))]
        apply findBlock_W_none _ _ _ c hXa hYa hZ
        rcases hcase with hcc | hyy
        · exact Or.inl ⟨hclass', hcc⟩
        · by_cases hcc : c = 34
          · exact Or.inr ⟨hcc, hyy⟩
          · exact Or.inl ⟨hclass', hcc⟩
      simp only [deobfuscate_python_code, hfb]

theorem exists_getD_of_mem (l : List Nat) (x : Nat) (h : x ∈ l) :
    ∃ i, i < l.length ∧ l.getD i 0 = x := by
  obtain ⟨i, hi, heq⟩ := List.mem_iff_getElem.mp h
  refine ⟨i, hi, ?_⟩
  rw [List.getD_eq_getElem?_getD, List.getElem?_eq_getElem hi]
  exact heq

theorem containsSub_split_none (s A0 P Z0 : List Nat)
    (hsA : containsSub s (A0 ++ [98, 34, 34, 34]) = false)
    (hsZ : containsSub s ([34, 34, 34] ++ Z0) = false)
    (h34 : ∀ x ∈ s, x ≠ 34)
    (hdot : ∃ x ∈ s, b64alpha x = false)
    (hP : ∀ x ∈ P, b64alpha x = true) :
    containsSub s (A0 ++ 98 :: 34 :: 34 :: 34 :: (P ++ 34 :: 34 :: 34 :: Z0)) = false := by
  by_contra hcon
  have hctrue : containsSub s (A0 ++ 98 :: 34 :: 34 :: 34 :: (P ++ 34 :: 34 :: 34 :: Z0)) =
      true := by
    cases hv : containsSub s (A0 ++ 98 :: 34 :: 34 :: 34 :: (P ++ 34 :: 34 :: 34 :: Z0))
    · exact absurd hv hcon
    · rfl
  obtain ⟨p, hlw⟩ := (containsSub_iff s _).mp hctrue
  obtain ⟨hlen, hpt⟩ := (leadsWith_iff s _).mp hlw
  rw [List.length_drop] at hlen
  have hpt' : ∀ i < s.length, s.getD i 0 =
      (A0 ++ 98 :: 34 :: 34 :: 34 :: (P ++ 34 :: 34 :: 34 :: Z0)).getD (p + i) 0 := by
    intro i hi
    rw [hpt i hi, getD_drop]
  set T := A0 ++ 98 :: 34 :: 34 :: 34 :: (P ++ 34 :: 34 :: 34 :: Z0) with hTdef
  have hTA : T = (A0 ++ [98, 34, 34, 34]) ++ (P ++ 34 :: 34 :: 34 :: Z0) := by
    simp [hTdef]
  have hTZ : T = ((A0 ++ [98, 34, 34, 34]) ++ P) ++ (34 :: 34 :: 34 :: Z0) := by
    simp [hTdef]
  have hTlen : T.length = A0.length + 4 + P.length + 3 + Z0.length := by
    rw [hTA]
    simp
    omega
  have hsne : s ≠ [] := by
    intro he
    obtain ⟨x, hx, -⟩ := hdot
    rw [he] at hx
    exact List.not_mem_nil x hx
  have hslen : 1 ≤ s.length := by
    cases s with
    | nil => exact absurd rfl hsne
    | cons a t => simp
  have hwin : p + s.length ≤ T.length := by omega
  by_cases hcase1 : p + s.length ≤ A0.length + 4
  · -- the occurrence lies inside the loader prefix
    have : containsSub s (A0 ++ [98, 34, 34, 34]) = true := by
      apply (containsSub_iff s _).mpr
      refine ⟨p, (leadsWith_iff s _).mpr ⟨?_, ?_⟩⟩
      · rw [List.length_drop]
        simp only [List.length_append, List.length_cons]
        omega
      · intro i hi
        rw [getD_drop, ← List.getD_append _ (P ++ 34 :: 34 :: 34 :: Z0) 0 (p + i)
          (by simp; omega), ← hTA]
        exact hpt' i hi
    rw [this] at hsA
    exact Bool.noConfusion hsA
  · by_cases hcase2 : A0.length + 4 + P.length ≤ p
    · -- the occurrence lies inside the loader suffix
      have : containsSub s ([34, 34, 34] ++ Z0) = true := by
        apply (containsSub_iff s _).mpr
        refine ⟨p - (A0.length + 4 + P.length), (leadsWith_iff s _).mpr ⟨?_, ?_⟩⟩
        · rw [List.length_drop]
          simp only [List.length_append, List.length_cons]
          omega
        · intro i hi
          rw [getD_drop]
          have he : ([34, 34, 34] ++ Z0).getD (p - (A0.length + 4 + P.length) + i) 0 =
              T.getD (p + i) 0 := by
            rw [hTZ, List.getD_append_right _ _ 0 (p + i) (by simp; omega)]
            have : p + i - ((A0 ++ [98, 34, 34, 34]) ++ P).length =
                p - (A0.length + 4 + P.length) + i := by
              simp
              omega
            rw [this]
            rfl
          rw [he]
          exact hpt' i hi
      rw [this] at hsZ
      exact Bool.noConfusion hsZ
    · -- the occurrence overlaps the payload: locate the non-alphabet character
      obtain ⟨x, hxs, hxa⟩ := hdot
      obtain ⟨i0, hi0, hgd⟩ := exists_getD_of_mem s x hxs
      have hq : T.getD (p + i0) 0 = x := by
        rw [← hpt' i0 hi0, hgd]
      by_cases hr1 : p + i0 < A0.length + 4
      · -- x sits in the prefix, so the window crosses the final quote of b"""
        have hidx : A0.length + 3 < p + s.length := by omega
        have hidx2 : p ≤ A0.length + 3 := by omega
        have hs34 : s.getD (A0.length + 3 - p) 0 = 34 := by
          rw [hpt' (A0.length + 3 - p) (by omega)]
          have : p + (A0.length + 3 - p) = A0.length + 3 := by omega
          rw [this, hTA, List.getD_append _ _ 0 _ (by simp)]
          rw [List.getD_append_right _ _ 0 _ (by simp)]
          have : A0.length + 3 - A0.length = 3 := by omega
          rw [this]
          rfl
        exact h34 _ (getD_mem_of_lt s _ (by omega)) hs34
      · by_cases hr2 : p + i0 < A0.length + 4 + P.length
        · -- x would be a payload character, but payload characters are alphabetic
          have : T.getD (p + i0) 0 ∈ P := by
            rw [hTZ, List.getD_append _ _ 0 _ (by simp; omega)]
            rw [List.getD_append_right _ _ 0 _ (by simp; omega)]
            apply getD_mem_of_lt
            simp
            omega
          rw [hq] at this
          rw [hP x this] at hxa
          exact Bool.noConfusion hxa
        · -- x sits in the suffix, so the window crosses the opening closer quote
          have hidx : A0.length + 4 + P.length < p + s.length := by omega
          have hidx2 : p ≤ A0.length + 4 + P.length := by omega
          have hs34 : s.getD (A0.length + 4 + P.length - p) 0 = 34 := by
            rw [hpt' (A0.length + 4 + P.length - p) (by omega)]
            have : p + (A0.length + 4 + P.length - p) = A0.length + 4 + P.length := by omega
            rw [this, hTZ, List.getD_append_right _ _ 0 _ (by simp; omega)]
            have : A0.length + 4 + P.length - ((A0 ++ [98, 34, 34, 34]) ++ P).length = 0 := by
              simp
              omega
            rw [this]
            rfl
          exact h34 _ (getD_mem_of_lt s _ (by omega)) hs34

theorem b64encode_ne_nil (D : List Nat) (h : D ≠ []) : b64encode D ≠ [] := by
  rcases D with _ | ⟨a, _ | ⟨b, _ | ⟨c, rest⟩⟩⟩
  · exact absurd rfl h
  · simp [b64encode]
  · simp [b64encode]
  · simp [b64encode]

theorem utf8Encode_ne_nil (T : List Nat) (h : T ≠ []) : utf8Encode T ≠ [] := by
  cases T with
  | nil => exact absurd rfl h
  | cons c rest =>
    rw [utf8Encode_cons]
    intro he
    exact utf8EncChar_ne_nil c (List.append_eq_nil.mp he).1

theorem containsSub_cons (p : List Nat) (a : Nat) (t : List Nat) (h : containsSub p t = true) :
    containsSub p (a :: t) = true := by
  simp [containsSub, h]

theorem deobf_reduces (A0 Z0 D : List Nat)
    (hA : ∀ x ∈ A0, x ≠ 34) (hD : ∀ b ∈ D, b < 256) (hDne : D ≠ []) :
    deobfuscate_python_code
        (A0 ++ 98 :: 34 :: 34 :: 34 :: (b64encode D ++ 34 :: 34 :: 34 :: Z0)) =
      (if sniffZlib (A0 ++ 98 :: 34 :: 34 :: 34 :: (b64encode D ++ 34 :: 34 :: 34 :: Z0)) = true
       then
        match (zlib_decompress D).bind utf8Decode with
        | some s => DeobfResult.text s
        | none =>
          match utf8Decode D with
          | some s => DeobfResult.text s
          | none => DeobfResult.errCaught
       else
        match utf8Decode D with
        | some s => DeobfResult.text s
        | none => DeobfResult.errCaught) := by
  have hPne : b64encode D ≠ [] := b64encode_ne_nil D hDne
  have hfb := findBlock_block A0 (b64encode D) Z0 hA hPne
    (fun x hx => b64alpha_class x (b64encode_alpha D hD x hx))
  have hdec : b64decode ((b64encode D).filter (fun c => c != 10)) = some D := by
    rw [alpha_filter_ne10 _ (b64encode_alpha D hD)]
    exact b64_roundtrip D hD
  simp only [deobfuscate_python_code, hfb, hdec]

theorem obfuscate_shape (T : List Nat) (u : Bool) (tp : Template) :
    obfuscate_python_code T u tp =
      loaderA0 tp u ++ 98 :: 34 :: 34 :: 34 ::
        (b64encode (payloadBytes T u) ++ 34 :: 34 :: 34 :: loaderZ0 tp u) := by
  unfold obfuscate_python_code loaderPre loaderPost
  simp

theorem loaderA0_no34 (tp : Template) (u : Bool) : ∀ x ∈ loaderA0 tp u, x ≠ 34 := by
  cases tp <;> cases u <;> decide

theorem loaderZ0_no34 (tp : Template) (u : Bool) : ∀ x ∈ loaderZ0 tp u, x ≠ 34 := by
  cases tp <;> cases u <;> decide

theorem sniff_true_compressed (tp : Template) (P : List Nat) :
    sniffZlib (loaderA0 tp true ++ 98 :: 34 :: 34 :: 34 ::
      (P ++ 34 :: 34 :: 34 :: loaderZ0 tp true)) = true := by
  have hmain : containsSub (strLit "zlib.decompress") (loaderA0 tp true ++ 98 :: 34 :: 34 :: 34 ::
      (P ++ 34 :: 34 :: 34 :: loaderZ0 tp true)) = true := by
    cases tp
    case compact =>
      apply containsSub_append_left
      decide
    all_goals
      apply containsSub_append_right
      apply containsSub_cons
      apply containsSub_cons
      apply containsSub_cons
      apply containsSub_cons
      apply containsSub_append_right
      apply containsSub_cons
      apply containsSub_cons
      apply containsSub_cons
      decide
  unfold sniffZlib
  rw [hmain]
  rfl

theorem sniff_false_uncompressed (tp : Template) (P : List Nat)
    (hP : ∀ x ∈ P, b64alpha x = true) :
    sniffZlib (loaderA0 tp false ++ 98 :: 34 :: 34 :: 34 ::
      (P ++ 34 :: 34 :: 34 :: loaderZ0 tp false)) = false := by
  have h1 : containsSub (strLit "zlib.decompress") (loaderA0 tp false ++ 98 :: 34 :: 34 :: 34 ::
      (P ++ 34 :: 34 :: 34 :: loaderZ0 tp false)) = false := by
    apply containsSub_split_none _ _ _ _ _ _ (by decide) (by decide) hP
    · cases tp <;> decide
    · cases tp <;> decide
  have h2 : containsSub (strLit "_z=zlib.decompress")
      (loaderA0 tp false ++ 98 :: 34 :: 34 :: 34 ::
      (P ++ 34 :: 34 :: 34 :: loaderZ0 tp false)) = false := by
    apply containsSub_split_none _ _ _ _ _ _ (by decide) (by decide) hP
    · cases tp <;> decide
    · cases tp <;> decide
  unfold sniffZlib
  rw [h1, h2]
  rfl

/-- C2 (amended): decoding the artifact produced by `obfuscate_python_code`
recovers exactly the source text `T` for every compression flag and loader
template whenever `T` is non-empty or compression is enabled.  The claim's
further assertion that the EMPTY input also decodes to an empty result fails
on the code: see `claim_C2_counterexample`. -/
theorem claim_C2_compress_encode_roundtrip (T : List Nat) (u : Bool) (tp : Template)
    (hT : ∀ c ∈ T, c < 1114112) (hne : T ≠ [] ∨ u = true) :
    deobfuscate_python_code (obfuscate_python_code T u tp) = .text T := by
  rw [obfuscate_shape]
  cases u
  case false =>
    have hTne : T ≠ [] := by
      rcases hne with h | h
      · exact h
      · exact absurd h (by simp)
    have hpb : payloadBytes T false = utf8Encode T := rfl
    rw [hpb]
    rw [deobf_reduces _ _ _ (loaderA0_no34 tp false)
      (utf8Encode_lt256 T hT) (utf8Encode_ne_nil T hTne)]
    rw [sniff_false_uncompressed tp _ (b64encode_alpha _ (utf8Encode_lt256 T hT))]
    simp only [Bool.false_eq_true, if_false]
    rw [utf8_roundtrip T hT]
  case true =>
    have hpb : payloadBytes T true = 120 :: utf8Encode T := rfl
    rw [hpb]
    have hD : ∀ b ∈ (120 :: utf8Encode T), b < 256 := by
      intro b hb
      rcases List.mem_cons.mp hb with h | h
      · omega
      · exact utf8Encode_lt256 T hT b h
    rw [deobf_reduces _ _ _ (loaderA0_no34 tp true) hD (by simp)]
    rw [sniff_true_compressed tp _]
    simp only [if_true]
    have hz : zlib_decompress (120 :: utf8Encode T) = some (utf8Encode T) := rfl
    rw [hz]
    simp only [Option.bind_some, Option.some_bind]
    rw [utf8_roundtrip T hT]

/-- C2 counterexample: with compression disabled the empty source produces
the loader text `... b = b\"\"\"\"\"\" ...` whose data block is empty; the
decoder's regular expression requires at least one block character, so
`deobfuscate_python_code` returns the could-not-find-data error instead of
the empty text the claim demands. -/
theorem claim_C2_counterexample :
    deobfuscate_python_code (obfuscate_python_code [] false .standard) = .errNoBlock ∧
    DeobfResult.errNoBlock ≠ .text [] := by
  constructor
  · decide
  · decide

/-- Witness for C2 at a concrete multi-byte (non-ASCII) source text. -/
theorem claim_C2_witness :
    deobfuscate_python_code (obfuscate_python_code [233] false .standard) = .text [233] :=
  claim_C2_compress_encode_roundtrip [233] false .standard (by decide) (Or.inl (by decide))

/-- C3 (amended): when zlib decompression of the extracted payload fails, the
decoder does NOT report the failure: the bare `except: pass` falls through to
returning the still-base64-decoded bytes decoded as UTF-8, so any artifact
whose text mentions `zlib.decompress` but whose payload is uncompressed
UTF-8 is returned silently as plausible text. -/
theorem claim_C3_decompress_fallback (A0 Z0 D S : List Nat)
    (hA : ∀ x ∈ A0, x ≠ 34) (hD : ∀ b ∈ D, b < 256) (hDne : D ≠ [])
    (hsn : sniffZlib
      (A0 ++ 98 :: 34 :: 34 :: 34 :: (b64encode D ++ 34 :: 34 :: 34 :: Z0)) = true)
    (hzfail : zlib_decompress D = none)
    (hplaus : utf8Decode D = some S) :
    deobfuscate_python_code
      (A0 ++ 98 :: 34 :: 34 :: 34 :: (b64encode D ++ 34 :: 34 :: 34 :: Z0)) = .text S := by
  rw [deobf_reduces A0 Z0 D hA hD hDne, hsn]
  simp only [if_true]
  rw [hzfail]
  simp only [Option.none_bind]
  rw [hplaus]

/-- C3 counterexample: a concrete artifact that mentions `zlib.decompress`
and carries the uncompressed payload `hi` — decompression fails (the bytes
have no zlib header) yet the decoder silently returns the text `hi` instead
of reporting the failure the claim requires. -/
theorem claim_C3_counterexample :
    zlib_decompress [104, 105] = none ∧
    deobfuscate_python_code (strLit "x = zlib.decompress\nb = b\"\"\"aGk=\"\"\"\n") =
      .text [104, 105] := by
  constructor
  · decide
  · decide

/-- Witness for C3's amended statement at the concrete artifact. -/
theorem claim_C3_witness :
    deobfuscate_python_code (strLit "x = zlib.decompress\nb = " ++
      98 :: 34 :: 34 :: 34 :: (b64encode [104, 105] ++ 34 :: 34 :: 34 :: strLit "\n")) =
      .text [104, 105] :=
  claim_C3_decompress_fallback (strLit "x = zlib.decompress\nb = ") (strLit "\n")
    [104, 105] [104, 105] (by decide) (by decide) (by decide) (by decide) (by decide) (by decide)

theorem payloadBytes_lt256 (T : List Nat) (u : Bool) (hT : ∀ c ∈ T, c < 1114112) :
    ∀ b ∈ payloadBytes T u, b < 256 := by
  cases u
  · exact utf8Encode_lt256 T hT
  · intro b hb
    have : payloadBytes T true = 120 :: utf8Encode T := rfl
    rw [this] at hb
    rcases List.mem_cons.mp hb with h | h
    · omega
    · exact utf8Encode_lt256 T hT b h

/-- C9: for every source, template and compression flag, altering one
character of the artifact's literal data block to any character outside the
base-64 alphabet `[A-Za-z0-9+/=]` makes `deobfuscate_python_code` return one
of its structured error strings (missing-block or caught-exception); it never
returns silently-wrong output and, being total, never escapes an exception.
The first conjunct records that the uncorrupted artifact is exactly the
loader prefix, payload block and suffix being corrupted. -/
theorem claim_C9_corrupted_block_error (T : List Nat) (u : Bool) (tp : Template) (j c : Nat)
    (hT : ∀ cp ∈ T, cp < 1114112)
    (hj : j < (b64encode (payloadBytes T u)).length)
    (hc : b64alpha c = false) :
    obfuscate_python_code T u tp =
      loaderA0 tp u ++ 98 :: 34 :: 34 :: 34 ::
        (b64encode (payloadBytes T u) ++ 34 :: 34 :: 34 :: loaderZ0 tp u) ∧
    (deobfuscate_python_code
        (loaderA0 tp u ++ 98 :: 34 :: 34 :: 34 ::
          ((b64encode (payloadBytes T u)).set j c ++ 34 :: 34 :: 34 :: loaderZ0 tp u)) =
        .errNoBlock ∨
     deobfuscate_python_code
        (loaderA0 tp u ++ 98 :: 34 :: 34 :: 34 ::
          ((b64encode (payloadBytes T u)).set j c ++ 34 :: 34 :: 34 :: loaderZ0 tp u)) =
        .errCaught) := by
  constructor
  · exact obfuscate_shape T u tp
  · exact deobf_corrupted_master (loaderA0 tp u) (loaderZ0 tp u) _ j c
      (loaderA0_no34 tp u) (loaderZ0_no34 tp u)
      (b64encode_alpha _ (payloadBytes_lt256 T u hT))
      (b64encode_mod4 _) hj hc

/-- Witness for C9: the standard template artifact for source byte `h` with
payload position 0 altered to `!` (33). -/
theorem claim_C9_witness :
    obfuscate_python_code [104] false .standard =
      loaderA0 .standard false ++ 98 :: 34 :: 34 :: 34 ::
        (b64encode (payloadBytes [104] false) ++ 34 :: 34 :: 34 :: loaderZ0 .standard false) ∧
    (deobfuscate_python_code
        (loaderA0 .standard false ++ 98 :: 34 :: 34 :: 34 ::
          ((b64encode (payloadBytes [104] false)).set 0 33 ++
            34 :: 34 :: 34 :: loaderZ0 .standard false)) = .errNoBlock ∨
     deobfuscate_python_code
        (loaderA0 .standard false ++ 98 :: 34 :: 34 :: 34 ::
          ((b64encode (payloadBytes [104] false)).set 0 33 ++
            34 :: 34 :: 34 :: loaderZ0 .standard false)) = .errCaught) :=
  claim_C9_corrupted_block_error [104] false .standard 0 33 (by decide) (by decide) (by decide)

/-- C4 counterexample: the app.py standard-template loader executes the
recovered program via `exec(src, globals())` — the loader's own module
environment — and creates no fresh dict (`{}` appears nowhere in it),
contradicting the claim that every generated loader uses a freshly created,
isolated environment. -/
theorem claim_C4_counterexample :
    containsSub (strLit "exec(src, globals())")
      (obfuscate_python_code (strLit "x=1") false .standard) = true ∧
    containsSub (strLit "\x7b\x7d")
      (obfuscate_python_code (strLit "x=1") false .standard) = false := by
  constructor
  · decide
  · decide

set_option maxRecDepth 4000 in
/-- C4 (amended): all four pyobf and pyobf_xor_mashal loader generators
(`make_simple_wrapper`, `make_ast_renamed_wrapper`, `build_marshal_xor_wrapper`,
`build_chunk_shuffle_wrapper`) execute the recovered code in a freshly created
empty dict (`_g = {}` / `exec(..., {})`), but every app.py
`obfuscate_python_code` loader — all templates, both compression settings —
executes via `exec(..., globals())` in the loader's own environment and
contains no fresh dict at all. -/
theorem claim_C4_exec_environments :
    (∀ (T : List Nat) (u : Bool) (tp : Template), (∀ cp ∈ T, cp < 1114112) →
      containsSub (strLit "globals()") (obfuscate_python_code T u tp) = true ∧
      containsSub (strLit "\x7b\x7d") (obfuscate_python_code T u tp) = false) ∧
    (∀ S : List Nat,
      containsSub (strLit "_g = \x7b\x7d") (make_simple_wrapper S) = true ∧
      containsSub
        (strLit "exec(compile(_data.decode(\x27utf-8\x27), \x27<obf>\x27, \x27exec\x27), _g)")
        (make_simple_wrapper S) = true) ∧
    (∀ compressedB64 : List Nat,
      containsSub (strLit "_g = \x7b\x7d") (ast_renamed_wrapper_text compressedB64) = true ∧
      containsSub
        (strLit "exec(compile(_data, \x27<obf_ast>\x27, \x27exec\x27), _g)")
        (ast_renamed_wrapper_text compressedB64) = true) ∧
    (∀ marshalled key name : List Nat,
      containsSub (strLit "exec(_code, \x7b\x7d)")
        (build_marshal_xor_wrapper marshalled key name) = true) ∧
    (∀ (encoded : List (List Nat)) (order name : List Nat),
      containsSub
        (strLit "exec(compile(_b.decode(\x27utf-8\x27), \x27<obf_chunk>\x27, \x27exec\x27), \x7b\x7d)")
        (build_chunk_shuffle_wrapper_text encoded order name) = true) := by
  refine ⟨?_, ?_, ?_, ?_, ?_⟩
  · intro T u tp hT
    rw [obfuscate_shape]
    constructor
    · apply containsSub_append_right
      apply containsSub_cons
      apply containsSub_cons
      apply containsSub_cons
      apply containsSub_cons
      apply containsSub_append_right
      apply containsSub_cons
      apply containsSub_cons
      apply containsSub_cons
      cases tp <;> cases u <;> decide
    · apply containsSub_split_none _ _ _ _ _ _ (by decide) (by decide)
        (b64encode_alpha _ (payloadBytes_lt256 T u hT))
      · cases tp <;> cases u <;> decide
      · cases tp <;> cases u <;> decide
  · intro S
    constructor
    · unfold make_simple_wrapper
      apply containsSub_append_right
      decide
    · unfold make_simple_wrapper
      apply containsSub_append_right
      decide
  · intro compressedB64
    constructor
    · unfold ast_renamed_wrapper_text
      apply containsSub_append_right
      decide
    · unfold ast_renamed_wrapper_text
      apply containsSub_append_right
      decide
  · intro marshalled key name
    unfold build_marshal_xor_wrapper
    apply containsSub_append_left
    apply containsSub_append_left
    apply containsSub_append_right
    decide
  · intro encoded order name
    unfold build_chunk_shuffle_wrapper_text
    apply containsSub_append_left
    apply containsSub_append_left
    apply containsSub_append_right
    decide

/-- Witness for C4's amended statement at a concrete source and template. -/
theorem claim_C4_witness :
    containsSub (strLit "globals()") (obfuscate_python_code [104] true .compact) = true ∧
    containsSub (strLit "\x7b\x7d") (obfuscate_python_code [104] true .compact) = false :=
  claim_C4_exec_environments.1 [104] true .compact (by decide)

/-- C6: the claim says no double-underscore-prefixed identifier is ever
replaced.  The code violates it: in `visit_FunctionDef` the argument loop
checks only `arg.arg not in self.builtins` (src/pyobf.py line 86), omitting
the `startswith('__')` guard used everywhere else, so for
`def f(__x): return __x` the parameter `__x` is renamed (and `generic_visit`
then renames the argument token a second time via `visit_arg`, making the
def-line name differ from the body reference). -/
theorem claim_C6_dunder_param_renamed :
    renameModule stdBuiltins genR dunderTree =
      .cons (.funcDef "_r0" ["_r2"] (.cons (.ret (.name "_r1")) .nil)) .nil := by
  rfl

/-- C5 counterexample: `rand_ident` draws names independently with no
uniqueness check or retry, so the draw in which every call returns
`_aaaaaaaa` (possible with positive probability) renames the outer `x`, the
inner parameter `x` and all their references to the SAME name, falsifying
the claim that the two generated names never collide. -/
theorem claim_C5_counterexample :
    renameModule stdBuiltins (fun _ => "_aaaaaaaa") shadowTree =
      .cons (.assign "_aaaaaaaa" (.num 1)) (.cons (.exprStmt (.name "_aaaaaaaa"))
        (.cons (.funcDef "_aaaaaaaa" ["_aaaaaaaa"] (.cons (.ret (.name "_aaaaaaaa")) .nil))
          (.cons (.exprStmt (.name "_aaaaaaaa")) .nil))) := by
  rfl

/-- C5 (amended): for the module-scope `x` shadowed by a parameter `x` of
`f`, the renamer maps all outer references to the first drawn name and all
inner references to the third drawn name, consistently; the two differ
PROVIDED the generator's draws differ — the code has no retry on collision,
so equal draws collide (see `claim_C5_counterexample`).  The hypotheses state
the shape `rand_ident` guarantees: draws are not builtins, never start with
`__`, and are not the user name `x`. -/
theorem claim_C5_renaming_consistency (B : List String) (gen : Nat → String)
    (hx : "x" ∉ B) (hf : "f" ∉ B)
    (h2B : gen 2 ∉ B) (h2d : startsDunder (gen 2) = false) (h2x : gen 2 ≠ "x")
    (hne : gen 0 ≠ gen 2) :
    renameModule B gen shadowTree =
      .cons (.assign (gen 0) (.num 1)) (.cons (.exprStmt (.name (gen 0)))
        (.cons (.funcDef (gen 1) [gen 3] (.cons (.ret (.name (gen 2))) .nil))
          (.cons (.exprStmt (.name (gen 0))) .nil))) ∧
    gen 0 ≠ gen 2 := by
  refine ⟨?_, hne⟩
  have hrx : renameOk B "x" = true := by
    simp [renameOk, hx, startsDunder]
  have hrf : renameOk B "f" = true := by
    simp [renameOk, hf, startsDunder]
  have hrg2 : renameOk B (gen 2) = true := by
    simp [renameOk, h2B, h2d]
  have hxB : ¬("x" ∈ B) := hx
  have h2x' : ¬("x" = gen 2) := fun h => h2x h.symm
  simp only [renameModule, shadowTree, renStmts, renStmt, renExpr, newName, addDefined,
    pushScope, popScope, renameArgsLoop, visitArgs, walkRenames, alookup,
    hrx, hrf, hrg2, hxB, h2x, h2x', if_true, if_false]
  simp [walkRenames, alookup, h2x, h2x', hrg2]

/-- Witness for C5's amended statement with the deterministic supply
`_r0`, `_r1`, ... -/
theorem claim_C5_witness :
    renameModule stdBuiltins genR shadowTree =
      .cons (.assign (genR 0) (.num 1)) (.cons (.exprStmt (.name (genR 0)))
        (.cons (.funcDef (genR 1) [genR 3] (.cons (.ret (.name (genR 2))) .nil))
          (.cons (.exprStmt (.name (genR 0))) .nil))) ∧
    genR 0 ≠ genR 2 :=
  claim_C5_renaming_consistency stdBuiltins genR (by decide) (by decide) (by decide)
    (by decide) (by decide) (by decide)
